import Mathlib

set_option linter.unusedVariables false

/-!
Verification of the mm.c segregated free-list allocator (CSAPP malloc lab
style, best-fit within class, realloc optimized).

Model conventions, matching the 32-bit build the lab uses:
* a word is 4 bytes; `size_t` and pointers are 32 bits wide; 0 is NULL;
* memory is a function from byte addresses to the 32-bit word stored at
  that address.  The allocator only ever reads and writes 4-byte-aligned
  addresses, so keying each 4-byte cell by its base address is exact;
* the `seg_list` table of 20 head pointers is kept as its own state field
  (the C code stores it at the base of the heap but accesses it only
  through `seg_list[i]`);
* the memlib heap provider is a break pointer `brk` together with a bound
  `maxAddr` past which `mem_sbrk` refuses to grow.
-/

/-- Heap memory: each 4-byte-aligned byte address holds a 32-bit word. -/
abbrev Mem : Type := Nat → Nat

/-- `PUT(p, val)` (mm.c line 49): store a 32-bit word at `p`. -/
def PUT (m : Mem) (p v : Nat) : Mem := fun a => if a = p then v % 2 ^ 32 else m a

/-- `GET(p)` (mm.c line 48): read the word at `p`. -/
def GET (m : Mem) (p : Nat) : Nat := m p

/-- `PACK(size, alloc)` (mm.c line 45): `(size) | (alloc)`. -/
def PACK (size alloc : Nat) : Nat := size ||| alloc

/-- `GET_SIZE(p)` (mm.c line 52): `GET(p) & ~0x7` on a 32-bit word, which
    truncates to 32 bits and clears the three low flag bits, i.e. rounds
    down to a multiple of 8. -/
def GET_SIZE (m : Mem) (p : Nat) : Nat := m p % 2 ^ 32 / 8 * 8

/-- `GET_ALLOC(p)` (mm.c line 53): `GET(p) & 0x1`, the low bit. -/
def GET_ALLOC (m : Mem) (p : Nat) : Nat := m p % 2

/-- `HDRP(bp)` (mm.c line 56): the header sits one word before the payload. -/
def HDRP (bp : Nat) : Nat := bp - 4

/-- `FTRP(bp)` (mm.c line 57): the footer, computed from the current header. -/
def FTRP (m : Mem) (bp : Nat) : Nat := bp + GET_SIZE m (HDRP bp) - 8

/-- `NEXT_BLKP(bp)` (mm.c line 60). -/
def NEXT_BLKP (m : Mem) (bp : Nat) : Nat := bp + GET_SIZE m (bp - 4)

/-- `PREV_BLKP(bp)` (mm.c line 61): steps back over the previous footer. -/
def PREV_BLKP (m : Mem) (bp : Nat) : Nat := bp - GET_SIZE m (bp - 8)

/-- `PRED_PTR(bp)` (mm.c line 64): the predecessor slot is the first payload word. -/
def PRED_PTR (bp : Nat) : Nat := bp

/-- `SUCC_PTR(bp)` (mm.c line 67): the successor slot is the second payload word. -/
def SUCC_PTR (bp : Nat) : Nat := bp + 4

/-- `GET_PRED(bp)` (mm.c line 70). -/
def GET_PRED (m : Mem) (bp : Nat) : Nat := m (PRED_PTR bp)

/-- `GET_SUCC(bp)` (mm.c line 74). -/
def GET_SUCC (m : Mem) (bp : Nat) : Nat := m (SUCC_PTR bp)

/-- 32-bit `size_t` subtraction `a - b` for operands below `2^32`. -/
def sub32 (a b : Nat) : Nat := (2 ^ 32 + a - b) % 2 ^ 32

/-- Allocator plus heap-provider state.  `segList` holds the 20 free-list
    head pointers (`seg_list` in mm.c, 0 meaning NULL); `lo` is
    `mem_heap_lo()`; `brk` the current break, so `mem_heap_hi() = brk - 1`;
    `maxAddr` is the highest break the provider will grant. -/
structure MMState where
  mem : Mem
  segList : Nat → Nat
  lo : Nat
  brk : Nat
  maxAddr : Nat

/-- `mem_sbrk(incr)` of the memlib heap provider: grow the heap by `incr`
    bytes returning the old break, or fail (return `(void *)-1`) when the
    provider is out of memory. -/
def mem_sbrk (s : MMState) (incr : Nat) : Option (Nat × MMState) :=
  if s.brk + incr ≤ s.maxAddr then some (s.brk, { s with brk := s.brk + incr })
  else none

/-- Pointwise update of the `seg_list` table. -/
def setSeg (f : Nat → Nat) (i v : Nat) : Nat → Nat := fun j => if j = i then v else f j

/-- `get_list_index` (mm.c lines 331-352): map a block size to one of the
    20 size classes, 8-byte steps up to 128 bytes then powers of two. -/
def get_list_index (size : Nat) : Nat :=
  if size ≤ 16 then 0
  else if size ≤ 24 then 1
  else if size ≤ 32 then 2
  else if size ≤ 40 then 3
  else if size ≤ 48 then 4
  else if size ≤ 56 then 5
  else if size ≤ 64 then 6
  else if size ≤ 72 then 7
  else if size ≤ 80 then 8
  else if size ≤ 88 then 9
  else if size ≤ 96 then 10
  else if size ≤ 104 then 11
  else if size ≤ 112 then 12
  else if size ≤ 128 then 13
  else if size ≤ 256 then 14
  else if size ≤ 512 then 15
  else if size ≤ 1024 then 16
  else if size ≤ 2048 then 17
  else if size ≤ 4096 then 18
  else 19

/-- `insert_node` (mm.c lines 354-366): LIFO insertion of `bp` at the head
    of the list for the class of `size`. -/
def insert_node (s : MMState) (bp size : Nat) : MMState :=
  let index := get_list_index size
  let root := s.segList index
  let m1 := PUT s.mem (SUCC_PTR bp) root
  let m2 := PUT m1 (PRED_PTR bp) 0
  let m3 := if root ≠ 0 then PUT m2 (PRED_PTR root) bp else m2
  { s with mem := m3, segList := setSeg s.segList index bp }

/-- `delete_node` (mm.c lines 368-380): stitch the predecessor and
    successor of `bp` past it.  The second C statement re-reads the link
    slots of `bp` after the first write, which the translation preserves. -/
def delete_node (s : MMState) (bp : Nat) : MMState :=
  let size := GET_SIZE s.mem (HDRP bp)
  let index := get_list_index size
  let s1 :=
    if GET_PRED s.mem bp ≠ 0 then
      { s with mem := PUT s.mem (SUCC_PTR (GET_PRED s.mem bp)) (GET_SUCC s.mem bp) }
    else
      { s with segList := setSeg s.segList index (GET_SUCC s.mem bp) }
  if GET_SUCC s1.mem bp ≠ 0 then
    { s1 with mem := PUT s1.mem (PRED_PTR (GET_SUCC s1.mem bp)) (GET_PRED s1.mem bp) }
  else s1

/-- Follow `GET_SUCC` links from `bp` until NULL, collecting the visited
    payload pointers; `none` when NULL is not reached within `fuel` steps
    (the corresponding C loop would run longer, or forever). -/
def succChain (m : Mem) : Nat → Nat → Option (List Nat)
  | _, 0 => some []
  | 0, _ + 1 => none
  | fuel + 1, bp + 1 =>
    (succChain m fuel (GET_SUCC m (bp + 1))).map (fun l => (bp + 1) :: l)

/-- The inner loop of `find_fit` (mm.c lines 308-322) over one class list,
    whose successor chain is `bps`.  `Sum.inl bp` is the immediate
    `return bp` on an exact fit; `Sum.inr` carries `best_bp` (0 = NULL) and
    `min_diff` at the end of the class. -/
def scanClass (m : Mem) (asize : Nat) : List Nat → Nat → Nat → Sum Nat (Nat × Nat)
  | [], best_bp, min_diff => Sum.inr (best_bp, min_diff)
  | bp :: rest, best_bp, min_diff =>
    let curr_size := GET_SIZE m (HDRP bp)
    if asize ≤ curr_size then
      let diff := curr_size - asize
      if diff = 0 then Sum.inl bp
      else if diff < min_diff then scanClass m asize rest bp diff
      else scanClass m asize rest best_bp min_diff
    else scanClass m asize rest best_bp min_diff

/-- The outer loop of `find_fit` (mm.c lines 307-327), scanning classes
    `i, i+1, ..., 19`.  Returns `none` when a chain exhausts `fuel`
    (model artifact); otherwise `some r` with `r` the C result (0 = NULL). -/
def find_fitFrom (s : MMState) (fuel asize : Nat) : Nat → Nat → Nat → Option Nat
  | i, best_bp, min_diff =>
    if i < 20 then
      match succChain s.mem fuel (s.segList i) with
      | none => none
      | some chain =>
        match scanClass s.mem asize chain best_bp min_diff with
        | Sum.inl bp => some bp
        | Sum.inr (best', min') =>
          if best' ≠ 0 then some best'
          else find_fitFrom s fuel asize (i + 1) best' min'
    else some best_bp
  termination_by i _ _ => 20 - i

/-- `find_fit` (mm.c lines 299-329): best-fit within the first class of
    sufficient size that yields a candidate, starting from the class of
    `asize`, with `min_diff` seeded to `(size_t)-1`. -/
def find_fit (s : MMState) (fuel asize : Nat) : Option Nat :=
  find_fitFrom s fuel asize (get_list_index asize) 0 (2 ^ 32 - 1)

/-- `place` (mm.c lines 277-297): remove `bp` from its list, then split
    when the remainder reaches the 16-byte minimum block size, else consume
    the whole block.  `csize - asize` is 32-bit `size_t` subtraction. -/
def place (s : MMState) (bp asize : Nat) : MMState :=
  let csize := GET_SIZE s.mem (HDRP bp)
  let s1 := delete_node s bp
  if 2 * 8 ≤ sub32 csize asize then
    let m1 := PUT s1.mem (HDRP bp) (PACK asize 1)
    let m2 := PUT m1 (FTRP m1 bp) (PACK asize 1)
    let bp2 := NEXT_BLKP m2 bp
    let m3 := PUT m2 (HDRP bp2) (PACK (sub32 csize asize) 0)
    let m4 := PUT m3 (FTRP m3 bp2) (PACK (sub32 csize asize) 0)
    insert_node { s1 with mem := m4 } bp2 (sub32 csize asize)
  else
    let m1 := PUT s1.mem (HDRP bp) (PACK csize 1)
    let m2 := PUT m1 (FTRP m1 bp) (PACK csize 1)
    { s1 with mem := m2 }

/-- `coalesce` (mm.c lines 234-275): four-case immediate boundary-tag
    coalescing, then LIFO insertion of the merged block.  Every address
    computation re-reads the then-current memory exactly as the C
    statement order does. -/
def coalesce (s : MMState) (bp : Nat) : MMState × Nat :=
  let prev_alloc := GET_ALLOC s.mem (FTRP s.mem (PREV_BLKP s.mem bp))
  let next_alloc := GET_ALLOC s.mem (HDRP (NEXT_BLKP s.mem bp))
  let size := GET_SIZE s.mem (HDRP bp)
  if prev_alloc ≠ 0 ∧ next_alloc ≠ 0 then
    -- case 1
    (insert_node s bp size, bp)
  else if prev_alloc ≠ 0 ∧ next_alloc = 0 then
    -- case 2
    let s1 := delete_node s (NEXT_BLKP s.mem bp)
    let size2 := size + GET_SIZE s1.mem (HDRP (NEXT_BLKP s1.mem bp))
    let m1 := PUT s1.mem (HDRP bp) (PACK size2 0)
    let m2 := PUT m1 (FTRP m1 bp) (PACK size2 0)
    (insert_node { s1 with mem := m2 } bp size2, bp)
  else if prev_alloc = 0 ∧ next_alloc ≠ 0 then
    -- case 3
    let s1 := delete_node s (PREV_BLKP s.mem bp)
    let size2 := size + GET_SIZE s1.mem (HDRP (PREV_BLKP s1.mem bp))
    let m1 := PUT s1.mem (FTRP s1.mem bp) (PACK size2 0)
    let m2 := PUT m1 (HDRP (PREV_BLKP m1 bp)) (PACK size2 0)
    let bp2 := PREV_BLKP m2 bp
    (insert_node { s1 with mem := m2 } bp2 size2, bp2)
  else
    -- case 4
    let s1 := delete_node s (PREV_BLKP s.mem bp)
    let s2 := delete_node s1 (NEXT_BLKP s1.mem bp)
    let size2 := size + (GET_SIZE s2.mem (HDRP (PREV_BLKP s2.mem bp))
      + GET_SIZE s2.mem (FTRP s2.mem (NEXT_BLKP s2.mem bp)))
    let m1 := PUT s2.mem (HDRP (PREV_BLKP s2.mem bp)) (PACK size2 0)
    let m2 := PUT m1 (FTRP m1 (NEXT_BLKP m1 bp)) (PACK size2 0)
    let bp2 := PREV_BLKP m2 bp
    (insert_node { s2 with mem := m2 } bp2 size2, bp2)

/-- `mm_free` (mm.c lines 141-153): clear the allocated bit in header and
    footer, then coalesce. -/
def mm_free (s : MMState) (ptr : Nat) : MMState :=
  if ptr = 0 then s
  else
    let size := GET_SIZE s.mem (HDRP ptr)
    let m1 := PUT s.mem (HDRP ptr) (PACK size 0)
    let m2 := PUT m1 (FTRP m1 ptr) (PACK size 0)
    (coalesce { s with mem := m2 } ptr).1

/-- `extend_heap` (mm.c lines 218-232): round the word count up to even,
    grow the heap, write the free-block tags over the old epilogue, write a
    new epilogue, and coalesce with a trailing free block. -/
def extend_heap (s : MMState) (words : Nat) : Option (MMState × Nat) :=
  let size := if words % 2 = 1 then (words + 1) * 4 else words * 4
  match mem_sbrk s size with
  | none => none
  | some (bp, s1) =>
    let m1 := PUT s1.mem (HDRP bp) (PACK size 0)
    let m2 := PUT m1 (FTRP m1 bp) (PACK size 0)
    let m3 := PUT m2 (HDRP (NEXT_BLKP m2 bp)) (PACK 0 1)
    some (coalesce { s1 with mem := m3 } bp)

/-- The adjusted block size computed identically by `mm_malloc`
    (mm.c lines 125-126) and `mm_realloc` (lines 175-176):
    `2*DSIZE` when `size <= DSIZE`, otherwise
    `DSIZE * ((size + DSIZE + (DSIZE-1)) / DSIZE)` in 32-bit `size_t`
    arithmetic with no overflow guard.  The final multiplication cannot
    wrap because the quotient is below `2^29`. -/
def adjust_size (size : Nat) : Nat :=
  if size ≤ 8 then 2 * 8 else 8 * ((size + 8 + (8 - 1)) % 2 ^ 32 / 8)

/-- `mm_malloc` (mm.c lines 116-139).  `none` only when a free-list chain
    outruns `fuel` (model artifact); otherwise `some (r, s2)` where `r` is
    the returned payload pointer, 0 meaning NULL. -/
def mm_malloc (s : MMState) (fuel size : Nat) : Option (Nat × MMState) :=
  if size = 0 then some (0, s)
  else
    let asize := adjust_size size
    match find_fit s fuel asize with
    | none => none
    | some bp =>
      if bp ≠ 0 then some (bp, place s bp asize)
      else
        let extendsize := max asize 4096
        match extend_heap s (extendsize / 4) with
        | none => some (0, s)
        | some (s1, bp1) => some (bp1, place s1 bp1 asize)

/-- `memcpy(dst, src, 4*n)` restricted to whole words, reading from the
    pre-copy memory; the allocator only copies payloads, whose sizes are
    multiples of 8, between disjoint blocks. -/
def memcpyW (m : Mem) (dst src : Nat) : Nat → Mem
  | 0 => m
  | n + 1 => PUT (memcpyW m dst src n) (dst + 4 * n) (m (src + 4 * n))

/-- `mm_realloc` (mm.c lines 155-216): the three in-place policies
    (shrink/equal, absorb next free, extend at heap tail) and the
    malloc-copy-free fallback. -/
def mm_realloc (s : MMState) (fuel ptr size : Nat) : Option (Nat × MMState) :=
  if ptr = 0 then mm_malloc s fuel size
  else if size = 0 then some (0, mm_free s ptr)
  else
    let old_size := GET_SIZE s.mem (HDRP ptr)
    let new_size := adjust_size size
    if new_size ≤ old_size then
      -- policy 1: shrink or equal, return ptr unchanged
      some (ptr, s)
    else
      let next_bp := NEXT_BLKP s.mem ptr
      let next_alloc := GET_ALLOC s.mem (HDRP next_bp)
      let next_size := GET_SIZE s.mem (HDRP next_bp)
      let combine_size := (old_size + next_size) % 2 ^ 32
      if next_alloc = 0 ∧ new_size ≤ combine_size then
        -- policy 2: absorb the next free block, no split
        let s1 := delete_node s next_bp
        let m1 := PUT s1.mem (HDRP ptr) (PACK combine_size 1)
        let m2 := PUT m1 (FTRP m1 ptr) (PACK combine_size 1)
        some (ptr, { s1 with mem := m2 })
      else if next_size = 0 then
        -- policy 3: at the heap tail, extend by exactly the growth
        let extend_needed := new_size - old_size
        match mem_sbrk s extend_needed with
        | none => some (0, s)
        | some (_, s1) =>
          let m1 := PUT s1.mem (HDRP ptr) (PACK new_size 1)
          let m2 := PUT m1 (FTRP m1 ptr) (PACK new_size 1)
          let m3 := PUT m2 (HDRP (NEXT_BLKP m2 ptr)) (PACK 0 1)
          some (ptr, { s1 with mem := m3 })
      else
        -- fallback: malloc, copy old_size - DSIZE payload bytes, free
        match mm_malloc s fuel size with
        | none => none
        | some (newptr, s1) =>
          if newptr = 0 then some (0, s1)
          else
            let m1 := memcpyW s1.mem newptr ptr (sub32 old_size 8 / 4)
            some (newptr, mm_free { s1 with mem := m1 } ptr)

/-- `mm_init` (mm.c lines 92-114): reserve the list table plus four words,
    clear the heads, write the pad word, prologue header and footer
    `(8, allocated)` and the initial epilogue `(0, allocated)`, then prime
    the heap with a `CHUNKSIZE` extension. -/
def mm_init (lo maxAddr : Nat) : Option MMState :=
  let s0 : MMState :=
    { mem := fun _ => 0, segList := fun _ => 0, lo := lo, brk := lo, maxAddr := maxAddr }
  match mem_sbrk s0 (20 * 4 + 4 * 4) with
  | none => none
  | some (base, s1) =>
    let prologue_ptr := base + 20 * 4
    let m1 := PUT s1.mem prologue_ptr 0
    let m2 := PUT m1 (prologue_ptr + 1 * 4) (PACK 8 1)
    let m3 := PUT m2 (prologue_ptr + 2 * 4) (PACK 8 1)
    let m4 := PUT m3 (prologue_ptr + 3 * 4) (PACK 0 1)
    match extend_heap { s1 with mem := m4 } (4096 / 4) with
    | none => none
    | some (s2, _) => some s2

/-- `checkblock` (mm.c lines 450-460): payload 8-byte aligned and raw
    header equal to raw footer.  `true` means the check passes. -/
def checkblock (m : Mem) (bp : Nat) : Bool :=
  bp % 8 == 0 && GET m (HDRP bp) == GET m (FTRP m bp)

/-- The heap-walk loop of `mm_check` (mm.c lines 399-411), starting at the
    prologue payload: `some (some (n, bpEnd))` when every block passes
    `checkblock` and no two adjacent blocks are both free, where `n` counts
    the free blocks and `bpEnd` is where the walk stopped (first zero-size
    header); `some none` when a check fails (the C code prints and exits);
    `none` when `fuel` runs out. -/
def mm_check_heap (m : Mem) : Nat → Nat → Option (Option (Nat × Nat))
  | 0, _ => none
  | fuel + 1, bp =>
    if GET_SIZE m (HDRP bp) = 0 then some (some (0, bp))
    else if ¬ checkblock m bp then some none
    else if GET_ALLOC m (HDRP bp) = 0 ∧ GET_ALLOC m (HDRP (NEXT_BLKP m bp)) = 0 then
      some none
    else
      match mm_check_heap m fuel (NEXT_BLKP m bp) with
      | none => none
      | some none => some none
      | some (some (n, bpEnd)) =>
        some (some ((if GET_ALLOC m (HDRP bp) = 0 then n + 1 else n), bpEnd))

/-- The per-class list loop of `mm_check` (mm.c lines 422-438): every node
    in bounds, free, and consistent with its predecessor pointer;
    `some (some k)` counts the nodes, `some none` is a failed check,
    `none` is exhausted `fuel`. -/
def mm_check_list (s : MMState) : Nat → Nat → Nat → Option (Option Nat)
  | 0, curr, _ => if curr = 0 then some (some 0) else none
  | fuel + 1, curr, prev =>
    if curr = 0 then some (some 0)
    else if curr < s.lo ∨ s.brk - 1 < curr then some none
    else if GET_ALLOC s.mem (HDRP curr) ≠ 0 then some none
    else if prev ≠ 0 ∧ GET_PRED s.mem curr ≠ prev then some none
    else
      match mm_check_list s fuel (GET_SUCC s.mem curr) curr with
      | none => none
      | some none => some none
      | some (some k) => some (some (k + 1))

/-- The list sweep of `mm_check` over classes `0, ..., i - 1` in order,
    accumulating the free-node count. -/
def mm_check_lists (s : MMState) (fuel : Nat) : Nat → Option (Option Nat)
  | 0 => some (some 0)
  | i + 1 =>
    match mm_check_lists s fuel i with
    | none => none
    | some none => some none
    | some (some n) =>
      match mm_check_list s fuel (s.segList i) 0 with
      | none => none
      | some none => some none
      | some (some k) => some (some (n + k))

/-- `mm_check` (mm.c lines 382-448): prologue shape, heap walk with
    per-block checks and the adjacent-free audit, epilogue shape, the
    20-list sweep, and the equality of the two free-block counts.
    `some true` models `return 1`; `some false` models the C `exit(1)`
    diagnostics; `none` means exhausted `fuel`. -/
def mm_check (s : MMState) (fuel : Nat) : Option Bool :=
  let heap_start := s.lo + 20 * 4 + 2 * 4
  if GET_SIZE s.mem (HDRP heap_start) ≠ 8 ∨ GET_ALLOC s.mem (HDRP heap_start) = 0 then
    some false
  else
    match mm_check_heap s.mem fuel heap_start with
    | none => none
    | some none => some false
    | some (some (free_count_by_heap, bpEnd)) =>
      if GET_SIZE s.mem (HDRP bpEnd) ≠ 0 ∨ GET_ALLOC s.mem (HDRP bpEnd) = 0 then
        some false
      else
        match mm_check_lists s fuel 20 with
        | none => none
        | some none => some false
        | some (some free_count_by_list) =>
          if free_count_by_heap ≠ free_count_by_list then some false
          else some true

/-! ### Concrete heaps used by the witnesses -/

/-- A minimal heap: prologue tags `(8,1)` at 84/88, one free 16-byte block
    at payload 96 (zero links) in class 0, epilogue header `(0,1)` at 108. -/
def memA : Mem := fun a =>
  if a = 84 then 9 else if a = 88 then 9
  else if a = 92 then 16 else if a = 104 then 16
  else if a = 108 then 1 else 0

/-- The heap over `memA`, break at 112 with room to grow to 8192. -/
def heapA : MMState :=
  { mem := memA, segList := fun j => if j = 0 then 96 else 0,
    lo := 0, brk := 112, maxAddr := 8192 }

/-- A heap whose single real block, at payload 96, is a 24-byte allocated
    block; epilogue at 116. -/
def memB : Mem := fun a =>
  if a = 84 then 9 else if a = 88 then 9
  else if a = 92 then 25 else if a = 112 then 25
  else if a = 116 then 1 else 0

/-- The heap over `memB`, all free lists empty. -/
def heapB : MMState :=
  { mem := memB, segList := fun _ => 0, lo := 0, brk := 120, maxAddr := 8192 }

/-! ### C8: public API boundary behaviours -/

/-- Claim C8: `mm_malloc(0)` returns NULL leaving the state unchanged;
    `mm_free(NULL)` changes nothing; `mm_realloc(NULL, n)` is exactly
    `mm_malloc(n)`; and for non-null `p`, `mm_realloc(p, 0)` frees `p` and
    returns NULL. -/
theorem c8_api_boundary (s : MMState) (fuel n ptr : Nat) (hptr : ptr ≠ 0) :
    mm_malloc s fuel 0 = some (0, s) ∧
    mm_free s 0 = s ∧
    mm_realloc s fuel 0 n = mm_malloc s fuel n ∧
    mm_realloc s fuel ptr 0 = some (0, mm_free s ptr) := by
  refine ⟨rfl, rfl, rfl, ?_⟩
  rw [mm_realloc, if_neg hptr, if_pos rfl]

/-- Witness for C8 at the concrete heap `heapA`, `fuel = 9`, `n = 24`,
    `ptr = 96`. -/
theorem c8_api_boundary_witness :
    mm_malloc heapA 9 0 = some (0, heapA) ∧
    mm_free heapA 0 = heapA ∧
    mm_realloc heapA 9 0 24 = mm_malloc heapA 9 24 ∧
    mm_realloc heapA 9 96 0 = some (0, mm_free heapA 96) :=
  c8_api_boundary heapA 9 24 96 (by decide)

/-! ### C10: unguarded 32-bit rounding overflow in the size adjustment -/

/-- Claim C10: the request rounding of `mm_malloc` and `mm_realloc` is
    32-bit modular arithmetic with no overflow guard: for any `size_t`
    request with `size + 15 > SIZE_MAX` (and `size > 8`, so the rounding
    branch is taken), the adjusted size is `((size + 15) mod 2^32) & ~7`,
    which is below 16 and below `size` — the request is not rejected. -/
theorem c10_adjust_size_overflow (size : Nat)
    (h1 : 2 ^ 32 - 15 ≤ size) (h2 : size < 2 ^ 32) (h3 : 8 < size) :
    adjust_size size = (size + 15) % 2 ^ 32 / 8 * 8 ∧
    adjust_size size < 16 ∧ adjust_size size < size := by
  rw [adjust_size, if_neg (by omega)]
  omega

/-- Witness for C10 at `size = 2^32 - 10`: the adjusted size is 0. -/
theorem c10_adjust_size_overflow_witness :
    adjust_size (2 ^ 32 - 10) = (2 ^ 32 - 10 + 15) % 2 ^ 32 / 8 * 8 ∧
    adjust_size (2 ^ 32 - 10) < 16 ∧ adjust_size (2 ^ 32 - 10) < 2 ^ 32 - 10 :=
  c10_adjust_size_overflow (2 ^ 32 - 10) (by norm_num) (by norm_num) (by norm_num)

/-! ### C4: realloc policy 1 (shrink or equal fit in place) -/

/-- Claim C4: for non-null `ptr` to an allocated block of total size
    `old_size` and any `0 < n` with `n ≤ old_size - 8`, `mm_realloc`
    returns `ptr` and the whole allocator state — header, footer, size,
    payload bytes, free lists — is unchanged: policy 1 performs no write
    and no split. -/
theorem c4_realloc_shrink_in_place (s : MMState) (fuel ptr n old_size : Nat)
    (hptr : ptr ≠ 0) (hn : 0 < n)
    (hold : GET_SIZE s.mem (HDRP ptr) = old_size)
    (h8 : old_size % 8 = 0) (h16 : 16 ≤ old_size) (hbound : old_size < 2 ^ 32)
    (hfit : n ≤ old_size - 8) :
    mm_realloc s fuel ptr n = some (ptr, s) := by
  have hnew : adjust_size n ≤ old_size := by
    rw [adjust_size]
    by_cases hc : n ≤ 8
    · rw [if_pos hc]; omega
    · rw [if_neg hc]; omega
  rw [mm_realloc, if_neg hptr, if_neg (by omega), hold, if_pos hnew]

/-- Witness for C4: shrinking the allocated 24-byte block of `heapB` to a
    10-byte request returns the same pointer and the identical state. -/
theorem c4_realloc_shrink_in_place_witness :
    mm_realloc heapB 7 96 10 = some (96, heapB) :=
  c4_realloc_shrink_in_place heapB 7 96 10 24 (by decide) (by decide) (by decide)
    (by decide) (by decide) (by norm_num) (by decide)

/-! ### C2: find_fit is best-fit within the first class that fits -/

/-- The candidates of one class chain: members whose block size is at
    least `asize` (statement vocabulary for the `find_fit` claims). -/
def fitCands (m : Mem) (asize : Nat) (l : List Nat) : List Nat :=
  l.filter (fun bp => decide (asize ≤ GET_SIZE m (HDRP bp)))

theorem mem_fitCands {m : Mem} {asize : Nat} {l : List Nat} {bp : Nat} :
    bp ∈ fitCands m asize l ↔ bp ∈ l ∧ asize ≤ GET_SIZE m (HDRP bp) := by
  simp [fitCands, List.mem_filter]

theorem GET_SIZE_le_word (m : Mem) (p : Nat) : GET_SIZE m p ≤ 2 ^ 32 - 8 := by
  rw [GET_SIZE]
  omega

/-- Every pointer collected by `succChain` is nonzero: the walk stops at
    NULL. -/
theorem succChain_mem_ne_zero (m : Mem) :
    ∀ fuel root l, succChain m fuel root = some l → ∀ bp ∈ l, bp ≠ 0 := by
  intro fuel
  induction fuel with
  | zero =>
    intro root l h bp hbp
    cases root with
    | zero => simp [succChain] at h; subst h; simp at hbp
    | succ r => simp [succChain] at h
  | succ f ih =>
    intro root l h bp hbp
    cases root with
    | zero => simp [succChain] at h; subst h; simp at hbp
    | succ r =>
      rw [succChain, Option.map_eq_some'] at h
      obtain ⟨l', hl', rfl⟩ := h
      rcases List.mem_cons.mp hbp with rfl | hmem
      · exact Nat.succ_ne_zero r
      · exact ih _ _ hl' _ hmem

/-- If the inner loop of `find_fit` returns early, the returned block is a
    member of the scanned chain and an exact fit. -/
theorem scanClass_inl (m : Mem) (asize : Nat) :
    ∀ (l : List Nat) (best mind bp : Nat),
      scanClass m asize l best mind = Sum.inl bp →
      bp ∈ l ∧ GET_SIZE m (HDRP bp) = asize := by
  intro l
  induction l with
  | nil => intro best mind bp h; simp [scanClass] at h
  | cons x rest ih =>
    intro best mind bp h
    simp only [scanClass] at h
    by_cases h1 : asize ≤ GET_SIZE m (HDRP x)
    · rw [if_pos h1] at h
      by_cases h2 : GET_SIZE m (HDRP x) - asize = 0
      · rw [if_pos h2] at h
        have hx : x = bp := by injection h
        subst hx
        exact ⟨List.mem_cons_self x rest, by omega⟩
      · rw [if_neg h2] at h
        by_cases h3 : GET_SIZE m (HDRP x) - asize < mind
        · rw [if_pos h3] at h
          obtain ⟨hmem, hsz⟩ := ih _ _ _ h
          exact ⟨List.mem_cons_of_mem _ hmem, hsz⟩
        · rw [if_neg h3] at h
          obtain ⟨hmem, hsz⟩ := ih _ _ _ h
          exact ⟨List.mem_cons_of_mem _ hmem, hsz⟩
    · rw [if_neg h1] at h
      obtain ⟨hmem, hsz⟩ := ih _ _ _ h
      exact ⟨List.mem_cons_of_mem _ hmem, hsz⟩

/-- If the inner loop finishes a chain, either the accumulator is
    unchanged and every candidate of the chain has `diff` at least the
    incoming `min_diff`, or the result is a candidate of the chain
    realizing the strictly smallest `diff` seen, which bounds every
    candidate of the chain. -/
theorem scanClass_inr (m : Mem) (asize : Nat) :
    ∀ (l : List Nat) (best mind b d : Nat),
      scanClass m asize l best mind = Sum.inr (b, d) →
      (b = best ∧ d = mind ∧
        ∀ c ∈ l, asize ≤ GET_SIZE m (HDRP c) → mind ≤ GET_SIZE m (HDRP c) - asize)
      ∨ (b ∈ l ∧ asize ≤ GET_SIZE m (HDRP b) ∧ d = GET_SIZE m (HDRP b) - asize ∧
          d < mind ∧ 0 < d ∧
          ∀ c ∈ l, asize ≤ GET_SIZE m (HDRP c) → d ≤ GET_SIZE m (HDRP c) - asize) := by
  intro l
  induction l with
  | nil =>
    intro best mind b d h
    simp only [scanClass, Sum.inr.injEq, Prod.mk.injEq] at h
    exact Or.inl ⟨h.1.symm, h.2.symm, by simp⟩
  | cons x rest ih =>
    intro best mind b d h
    simp only [scanClass] at h
    by_cases h1 : asize ≤ GET_SIZE m (HDRP x)
    · rw [if_pos h1] at h
      by_cases h2 : GET_SIZE m (HDRP x) - asize = 0
      · rw [if_pos h2] at h; exact absurd h (by simp)
      · rw [if_neg h2] at h
        by_cases h3 : GET_SIZE m (HDRP x) - asize < mind
        · rw [if_pos h3] at h
          rcases ih _ _ _ _ h with ⟨hbx, hdd, hall⟩ | ⟨hb, hcand, hd, hlt, hpos, hall⟩
          · refine Or.inr ⟨?_, ?_, ?_, by omega, by omega, ?_⟩
            · rw [hbx]; exact List.mem_cons_self x rest
            · rw [hbx]; exact h1
            · rw [hbx]; exact hdd
            · intro c hc hcandc
              rcases List.mem_cons.mp hc with hcx | hmem
              · rw [hcx]; omega
              · exact le_trans (by omega) (hall c hmem hcandc)
          · refine Or.inr ⟨List.mem_cons_of_mem _ hb, hcand, hd, by omega, hpos, ?_⟩
            intro c hc hcandc
            rcases List.mem_cons.mp hc with hcx | hmem
            · rw [hcx]; omega
            · exact hall c hmem hcandc
        · rw [if_neg h3] at h
          rcases ih _ _ _ _ h with ⟨hbb, hdm, hall⟩ | ⟨hb, hcand, hd, hlt, hpos, hall⟩
          · refine Or.inl ⟨hbb, hdm, ?_⟩
            intro c hc hcandc
            rcases List.mem_cons.mp hc with hcx | hmem
            · rw [hcx]; omega
            · exact hall c hmem hcandc
          · refine Or.inr ⟨List.mem_cons_of_mem _ hb, hcand, hd, hlt, hpos, ?_⟩
            intro c hc hcandc
            rcases List.mem_cons.mp hc with hcx | hmem
            · rw [hcx]; omega
            · exact hall c hmem hcandc
    · rw [if_neg h1] at h
      rcases ih _ _ _ _ h with ⟨hbb, hdm, hall⟩ | ⟨hb, hcand, hd, hlt, hpos, hall⟩
      · refine Or.inl ⟨hbb, hdm, ?_⟩
        intro c hc hcandc
        rcases List.mem_cons.mp hc with hcx | hmem
        · rw [hcx] at hcandc; exact absurd hcandc h1
        · exact hall c hmem hcandc
      · refine Or.inr ⟨List.mem_cons_of_mem _ hb, hcand, hd, hlt, hpos, ?_⟩
        intro c hc hcandc
        rcases List.mem_cons.mp hc with hcx | hmem
        · rw [hcx] at hcandc; exact absurd hcandc h1
        · exact hall c hmem hcandc

/-- Unfolding step of `find_fitFrom` for a class `i < 20` whose chain is
    known. -/
theorem find_fitFrom_step (s : MMState) (fuel asize i b md : Nat) (ch : List Nat)
    (hi : i < 20) (hch : succChain s.mem fuel (s.segList i) = some ch) :
    find_fitFrom s fuel asize i b md =
      match scanClass s.mem asize ch b md with
      | Sum.inl bp => some bp
      | Sum.inr (best2, min2) =>
        if best2 ≠ 0 then some best2 else find_fitFrom s fuel asize (i + 1) best2 min2 := by
  rw [find_fitFrom, if_pos hi, hch]

/-- The outer loop of `find_fit` from class `i` with the fresh accumulator
    `(NULL, (size_t)-1)`: it returns NULL exactly when no class from `i`
    up has a candidate; otherwise it returns a candidate from the first
    class (in scanning order) that has one, minimizing the surplus within
    that class, never merging candidates across classes. -/
theorem find_fitFrom_spec (s : MMState) (fuel asize : Nat) (L : Nat → List Nat) :
    ∀ k i, 20 - i ≤ k →
      (∀ j, i ≤ j → j < 20 → succChain s.mem fuel (s.segList j) = some (L j)) →
      ∃ r, find_fitFrom s fuel asize i 0 (2 ^ 32 - 1) = some r ∧
        ((r = 0 ∧ ∀ j, i ≤ j → j < 20 → fitCands s.mem asize (L j) = []) ∨
         (r ≠ 0 ∧ ∃ jj, i ≤ jj ∧ jj < 20 ∧
            (∀ j, i ≤ j → j < jj → fitCands s.mem asize (L j) = []) ∧
            r ∈ fitCands s.mem asize (L jj) ∧
            (∀ c ∈ fitCands s.mem asize (L jj),
              GET_SIZE s.mem (HDRP r) - asize ≤ GET_SIZE s.mem (HDRP c) - asize))) := by
  intro k
  induction k with
  | zero =>
    intro i hk hch
    rw [find_fitFrom, if_neg (by omega)]
    exact ⟨0, rfl, Or.inl ⟨rfl, fun j h1 h2 => by omega⟩⟩
  | succ k ih =>
    intro i hk hch
    by_cases hi : i < 20
    · rw [find_fitFrom_step s fuel asize i 0 (2 ^ 32 - 1) (L i) hi (hch i (le_refl i) hi)]
      cases hscan : scanClass s.mem asize (L i) 0 (2 ^ 32 - 1) with
      | inl bp =>
        obtain ⟨hmem, hsz⟩ := scanClass_inl s.mem asize (L i) _ _ _ hscan
        have hbp0 : bp ≠ 0 := succChain_mem_ne_zero s.mem _ _ _ (hch i (le_refl i) hi) bp hmem
        refine ⟨bp, rfl, Or.inr ⟨hbp0, i, le_refl i, hi, fun j h1 h2 => by omega, ?_, ?_⟩⟩
        · exact mem_fitCands.mpr ⟨hmem, by omega⟩
        · intro c hc; omega
      | inr bd =>
        obtain ⟨b, d⟩ := bd
        rcases scanClass_inr s.mem asize (L i) _ _ _ _ hscan with
          ⟨hb0, hdm, hall⟩ | ⟨hb, hcand, hd, hlt, hpos, hall⟩
        · -- no candidate in class i: the accumulator survived untouched
          have hnone : fitCands s.mem asize (L i) = [] := by
            rw [fitCands, List.filter_eq_nil_iff]
            intro c hc
            simp only [decide_eq_true_eq]
            intro hcandc
            have := hall c hc hcandc
            have := GET_SIZE_le_word s.mem (HDRP c)
            omega
          simp only [hb0, hdm, ne_eq, not_true_eq_false, if_false, ite_false]
          have hred : (if (0 : Nat) ≠ 0 then some (0 : Nat)
              else find_fitFrom s fuel asize (i + 1) 0 (2 ^ 32 - 1)) =
              find_fitFrom s fuel asize (i + 1) 0 (2 ^ 32 - 1) := by
            rw [if_neg (by simp)]
          obtain ⟨r, hr, hspec⟩ := ih (i + 1) (by omega)
            (fun j h1 h2 => hch j (by omega) h2)
          refine ⟨r, ?_, ?_⟩
          · rw [hr]
          · rcases hspec with ⟨hr0, hempty⟩ | ⟨hr0, jj, hjj1, hjj2, hearlier, hmem, hmin⟩
            · refine Or.inl ⟨hr0, ?_⟩
              intro j h1 h2
              rcases Nat.eq_or_lt_of_le h1 with heq | hlt2
              · rw [← heq]; exact hnone
              · exact hempty j hlt2 h2
            · refine Or.inr ⟨hr0, jj, by omega, hjj2, ?_, hmem, hmin⟩
              intro j h1 h2
              rcases Nat.eq_or_lt_of_le h1 with heq | hlt2
              · rw [← heq]; exact hnone
              · exact hearlier j hlt2 h2
        · -- a candidate was tracked: return the best of class i
          have hb0 : b ≠ 0 := succChain_mem_ne_zero s.mem _ _ _ (hch i (le_refl i) hi) b hb
          refine ⟨b, ?_, ?_⟩
          · simp only [if_pos hb0]
          · refine Or.inr ⟨hb0, i, le_refl i, hi, fun j h1 h2 => by omega,
              mem_fitCands.mpr ⟨hb, hcand⟩, ?_⟩
            intro c hc
            have := hall c (mem_fitCands.mp hc).1 (mem_fitCands.mp hc).2
            omega
    · rw [find_fitFrom, if_neg hi]
      exact ⟨0, rfl, Or.inl ⟨rfl, fun j h1 h2 => by omega⟩⟩

/-- Claim C2: given the 20 class chains, `find_fit(asize)` scans classes
    `class(asize), ..., 19` in order and returns NULL exactly when no
    scanned class holds a block of size at least `asize`; otherwise it
    returns a block of the first scanned class holding any such candidate,
    minimizing `size - asize` over the candidates of that class alone
    (so an exact fit, having surplus 0, is always preferred), never
    merging candidates across classes. -/
theorem c2_find_fit_best_fit_within_class (s : MMState) (fuel asize : Nat)
    (L : Nat → List Nat)
    (hch : ∀ j, get_list_index asize ≤ j → j < 20 →
      succChain s.mem fuel (s.segList j) = some (L j)) :
    ∃ r, find_fit s fuel asize = some r ∧
      ((r = 0 ∧ ∀ j, get_list_index asize ≤ j → j < 20 →
          fitCands s.mem asize (L j) = []) ∨
       (r ≠ 0 ∧ ∃ jj, get_list_index asize ≤ jj ∧ jj < 20 ∧
          (∀ j, get_list_index asize ≤ j → j < jj → fitCands s.mem asize (L j) = []) ∧
          r ∈ fitCands s.mem asize (L jj) ∧
          (∀ c ∈ fitCands s.mem asize (L jj),
            GET_SIZE s.mem (HDRP r) - asize ≤ GET_SIZE s.mem (HDRP c) - asize))) :=
  find_fitFrom_spec s fuel asize L (20 - get_list_index asize) (get_list_index asize)
    (le_refl _) hch

/-- The class chains of `heapA` for the C2 witness: class 0 holds the one
    free block at 96, all other chains are empty. -/
def chainsA : Nat → List Nat := fun i => if i = 0 then [96] else []

/-- Witness for C2 on `heapA` with `asize = 24`: class 0 is scanned and
    its single 16-byte block is no candidate, so the search continues
    upward through empty classes and returns NULL. -/
theorem c2_find_fit_best_fit_within_class_witness :
    ∃ r, find_fit heapA 3 24 = some r ∧
      ((r = 0 ∧ ∀ j, get_list_index 24 ≤ j → j < 20 →
          fitCands heapA.mem 24 (chainsA j) = []) ∨
       (r ≠ 0 ∧ ∃ jj, get_list_index 24 ≤ jj ∧ jj < 20 ∧
          (∀ j, get_list_index 24 ≤ j → j < jj → fitCands heapA.mem 24 (chainsA j) = []) ∧
          r ∈ fitCands heapA.mem 24 (chainsA jj) ∧
          (∀ c ∈ fitCands heapA.mem 24 (chainsA jj),
            GET_SIZE heapA.mem (HDRP r) - 24 ≤ GET_SIZE heapA.mem (HDRP c) - 24))) :=
  c2_find_fit_best_fit_within_class heapA 3 24 chainsA (by decide)

/-! ### C9: mm_check never audits the class of a listed block -/

/-- Claim C9: `mm_check` never compares the size class of a listed free
    block with the index of the list holding it.  Whenever the audits it
    does perform succeed — prologue shape, per-block checks with the
    adjacent-free audit (`mm_check_heap`), epilogue shape, the list sweep
    (`mm_check_lists`) with matching free counts — it returns 1, even in
    the presence of a free block `bp` linked into a list `i` although
    `get_list_index` maps its size elsewhere: the mismatch hypotheses
    below are never consulted by the proof because no audit reads them. -/
theorem c9_mm_check_ignores_list_class (s : MMState) (fuel : Nat)
    (i bp counts bpEnd : Nat) (l : List Nat)
    (hpro : ¬(GET_SIZE s.mem (HDRP (s.lo + 20 * 4 + 2 * 4)) ≠ 8 ∨
      GET_ALLOC s.mem (HDRP (s.lo + 20 * 4 + 2 * 4)) = 0))
    (hheap : mm_check_heap s.mem fuel (s.lo + 20 * 4 + 2 * 4) = some (some (counts, bpEnd)))
    (hepi : ¬(GET_SIZE s.mem (HDRP bpEnd) ≠ 0 ∨ GET_ALLOC s.mem (HDRP bpEnd) = 0))
    (hlists : mm_check_lists s fuel 20 = some (some counts))
    (hi : i < 20) (hchain : succChain s.mem fuel (s.segList i) = some l)
    (hbp : bp ∈ l)
    (hmism : get_list_index (GET_SIZE s.mem (HDRP bp)) ≠ i) :
    mm_check s fuel = some true := by
  rw [mm_check]
  simp only [if_neg hpro, hheap, if_neg hepi, hlists]
  rw [if_neg (by simp)]

/-- The `memA` heap with its free 16-byte block at 96 linked into class 5
    although `get_list_index 16 = 0`: a cross-listed free block. -/
def heapC : MMState :=
  { mem := memA, segList := fun j => if j = 5 then 96 else 0,
    lo := 0, brk := 112, maxAddr := 8192 }

/-- Witness for C9: on `heapC` every audit `mm_check` performs passes while
    the free block at 96 sits in list 5 instead of list 0, and `mm_check`
    returns 1. -/
theorem c9_mm_check_ignores_list_class_witness : mm_check heapC 20 = some true :=
  c9_mm_check_ignores_list_class heapC 20 5 96 1 112 [96]
    (by decide) (by decide) (by decide) (by decide) (by decide) (by decide)
    (by decide) (by decide)

/-! ### Tag arithmetic and memory update lemmas -/

theorem PUT_at (m : Mem) (p v : Nat) : PUT m p v p = v % 2 ^ 32 := by
  simp [PUT]

theorem PUT_elsewhere (m : Mem) (p v a : Nat) (h : a ≠ p) : PUT m p v a = m a := by
  simp [PUT, h]

/-- Packing a multiple of 8 with a flag below 8: the bitwise or of
    `PACK` coincides with addition because the operands occupy disjoint
    bits. -/
theorem PACK_eq_add (sz a : Nat) (h8 : sz % 8 = 0) (ha : a < 8) : PACK sz a = sz + a := by
  rw [PACK]
  obtain ⟨k, rfl⟩ : ∃ k, sz = 8 * k := ⟨sz / 8, by omega⟩
  apply Nat.eq_of_testBit_eq
  intro j
  have h8k : (8 : Nat) * k = 2 ^ 3 * k := by norm_num
  rw [Nat.testBit_lor, h8k, Nat.testBit_mul_pow_two_add k (show a < 2 ^ 3 by omega) j,
    Nat.testBit_mul_pow_two]
  by_cases hj : j < 3
  · have h2 : ¬ j ≥ 3 := by omega
    simp [hj, h2]
  · have hj3 : j ≥ 3 := by omega
    have h8le : (8 : Nat) ≤ 2 ^ j := by
      calc (8 : Nat) = 2 ^ 3 := by norm_num
      _ ≤ 2 ^ j := Nat.pow_le_pow_right (by omega) hj3
    have hfa : a.testBit j = false :=
      Nat.testBit_lt_two_pow (lt_of_lt_of_le ha h8le)
    simp [hj, hj3, hfa]

theorem GET_SIZE_mod8 (m : Mem) (p : Nat) : GET_SIZE m p % 8 = 0 := by
  rw [GET_SIZE]; omega

theorem GET_SIZE_lt_word (m : Mem) (p : Nat) : GET_SIZE m p < 2 ^ 32 := by
  rw [GET_SIZE]; omega

theorem adjust_size_mod8 (n : Nat) : adjust_size n % 8 = 0 := by
  rw [adjust_size]
  by_cases h : n ≤ 8
  · rw [if_pos h]
  · rw [if_neg h]; omega

theorem adjust_size_lt_word (n : Nat) : adjust_size n < 2 ^ 32 := by
  rw [adjust_size]
  by_cases h : n ≤ 8
  · rw [if_pos h]; norm_num
  · rw [if_neg h]; omega

/-- Reading back a freshly stored allocated tag: size and low bit. -/
theorem stored_tag (m : Mem) (p sz a : Nat) (h8 : sz % 8 = 0) (hlt : sz < 2 ^ 32)
    (ha : a < 2) :
    PUT m p (PACK sz a) p = sz + a ∧
    GET_SIZE (PUT m p (PACK sz a)) p = sz ∧ GET_ALLOC (PUT m p (PACK sz a)) p = a := by
  have hp : PACK sz a = sz + a := PACK_eq_add sz a h8 (by omega)
  have hv : PUT m p (PACK sz a) p = sz + a := by
    rw [PUT_at, hp, Nat.mod_eq_of_lt (by omega)]
  refine ⟨hv, ?_, ?_⟩
  · rw [GET_SIZE, hv]; omega
  · rw [GET_ALLOC, hv]; omega

/-! ### C6: realloc policy 3 (extend in place at the heap tail) -/

/-- Claim C6: when the block at `ptr` is the last before the epilogue
    (next header has size 0) and policies 1 and 2 do not apply,
    `mm_realloc` asks the provider for exactly `new_size - old_size`
    further bytes.  On success it returns `ptr` after rewriting the tags
    to `(new_size, allocated)` and writing a fresh epilogue `(0, allocated)`
    immediately after, leaving the payload bytes and the free lists
    untouched; when the provider refuses, it returns NULL with the whole
    state (header, footer, payload included) unchanged. -/
theorem c6_realloc_extend_at_tail (s : MMState) (fuel ptr size : Nat)
    (hptr : ptr ≠ 0) (hp8 : 8 ≤ ptr) (hsize : size ≠ 0)
    (hgrow : GET_SIZE s.mem (HDRP ptr) < adjust_size size)
    (hepi : GET_SIZE s.mem (HDRP (NEXT_BLKP s.mem ptr)) = 0) :
    (s.brk + (adjust_size size - GET_SIZE s.mem (HDRP ptr)) ≤ s.maxAddr →
      ∃ s2, mm_realloc s fuel ptr size = some (ptr, s2) ∧
        s2.brk = s.brk + (adjust_size size - GET_SIZE s.mem (HDRP ptr)) ∧
        s2.segList = s.segList ∧ s2.lo = s.lo ∧ s2.maxAddr = s.maxAddr ∧
        GET_SIZE s2.mem (HDRP ptr) = adjust_size size ∧
        GET_ALLOC s2.mem (HDRP ptr) = 1 ∧
        s2.mem (ptr + adjust_size size - 8) = adjust_size size + 1 ∧
        GET_SIZE s2.mem (HDRP (NEXT_BLKP s2.mem ptr)) = 0 ∧
        GET_ALLOC s2.mem (HDRP (NEXT_BLKP s2.mem ptr)) = 1 ∧
        (∀ a, a < ptr + GET_SIZE s.mem (HDRP ptr) - 8 → ptr ≤ a → s2.mem a = s.mem a)) ∧
    (¬ (s.brk + (adjust_size size - GET_SIZE s.mem (HDRP ptr)) ≤ s.maxAddr) →
      mm_realloc s fuel ptr size = some (0, s)) := by
  have hold8 : GET_SIZE s.mem (HDRP ptr) % 8 = 0 := GET_SIZE_mod8 _ _
  have holdlt : GET_SIZE s.mem (HDRP ptr) < 2 ^ 32 := GET_SIZE_lt_word _ _
  have hnew8 : adjust_size size % 8 = 0 := adjust_size_mod8 _
  have hnewlt : adjust_size size < 2 ^ 32 := adjust_size_lt_word _
  have hno2 : ¬ (GET_ALLOC s.mem (HDRP (NEXT_BLKP s.mem ptr)) = 0 ∧
      adjust_size size ≤ (GET_SIZE s.mem (HDRP ptr) +
        GET_SIZE s.mem (HDRP (NEXT_BLKP s.mem ptr))) % 2 ^ 32) := by
    rw [hepi]
    intro hcon
    have := hcon.2
    omega
  constructor
  · -- the provider grants the extension
    intro hok
    rw [mm_realloc, if_neg hptr, if_neg hsize, if_neg (by omega), if_neg hno2,
      if_pos hepi]
    simp only [mem_sbrk]
    rw [if_pos hok]
    set ns := adjust_size size with hns
    set os := GET_SIZE s.mem (HDRP ptr) with hos
    have hhdr := stored_tag s.mem (HDRP ptr) ns 1 hnew8 hnewlt (by omega)
    set m1 := PUT s.mem (HDRP ptr) (PACK ns 1) with hm1
    have hm1h : m1 (ptr - 4) = ns + 1 := by rw [hm1, HDRP] at hhdr ⊢; exact hhdr.1
    have hm1sz : GET_SIZE m1 (HDRP ptr) = ns := hhdr.2.1
    have hftr : FTRP m1 ptr = ptr + ns - 8 := by rw [FTRP, hm1sz]
    set m2 := PUT m1 (FTRP m1 ptr) (PACK ns 1) with hm2
    have hne_fh : ptr - 4 ≠ ptr + ns - 8 := by omega
    have hm2h : m2 (ptr - 4) = ns + 1 := by
      rw [hm2, hftr, PUT_elsewhere _ _ _ _ hne_fh, hm1h]
    have hm2f : m2 (ptr + ns - 8) = ns + 1 := by
      have := stored_tag m1 (FTRP m1 ptr) ns 1 hnew8 hnewlt (by omega)
      rw [hftr] at this
      rw [hm2, hftr]
      exact this.1
    have hm2sz : GET_SIZE m2 (ptr - 4) = ns := by rw [GET_SIZE, hm2h]; omega
    have hnext : NEXT_BLKP m2 ptr = ptr + ns := by rw [NEXT_BLKP, hm2sz]
    set m3 := PUT m2 (HDRP (NEXT_BLKP m2 ptr)) (PACK 0 1) with hm3
    have hepiaddr : HDRP (NEXT_BLKP m2 ptr) = ptr + ns - 4 := by rw [hnext, HDRP]
    have hm3h : m3 (ptr - 4) = ns + 1 := by
      rw [hm3, hepiaddr, PUT_elsewhere _ _ _ _ (by omega), hm2h]
    have hm3f : m3 (ptr + ns - 8) = ns + 1 := by
      rw [hm3, hepiaddr, PUT_elsewhere _ _ _ _ (by omega), hm2f]
    have hm3e : m3 (ptr + ns - 4) = 1 := by
      rw [hm3, hepiaddr, PUT_at]; decide
    have hszG : GET_SIZE m3 (HDRP ptr) = ns := by
      rw [GET_SIZE, HDRP, hm3h]; omega
    have halG : GET_ALLOC m3 (HDRP ptr) = 1 := by
      rw [GET_ALLOC, HDRP, hm3h]; omega
    have hnext3 : NEXT_BLKP m3 ptr = ptr + ns := by
      rw [NEXT_BLKP]
      have : GET_SIZE m3 (ptr - 4) = ns := by rw [GET_SIZE, hm3h]; omega
      rw [this]
    have heszG : GET_SIZE m3 (HDRP (NEXT_BLKP m3 ptr)) = 0 := by
      rw [hnext3, HDRP, GET_SIZE, hm3e]; decide
    have healG : GET_ALLOC m3 (HDRP (NEXT_BLKP m3 ptr)) = 1 := by
      rw [hnext3, HDRP, GET_ALLOC, hm3e]
    have hpay : ∀ a, a < ptr + os - 8 → ptr ≤ a → m3 a = s.mem a := by
      intro a ha1 ha2
      rw [hm3, hepiaddr, PUT_elsewhere _ _ _ _ (by omega),
        hm2, hftr, PUT_elsewhere _ _ _ _ (by omega),
        hm1, HDRP, PUT_elsewhere _ _ _ _ (by omega)]
    exact ⟨_, rfl, rfl, rfl, rfl, rfl, hszG, halG, hm3f, heszG, healG, hpay⟩
  · -- the provider refuses: nothing was written
    intro hfail
    rw [mm_realloc, if_neg hptr, if_neg hsize, if_neg (by omega), if_neg hno2,
      if_pos hepi]
    simp only [mem_sbrk]
    rw [if_neg hfail]

/-- Witness for C6: growing the tail block of `heapB` (24 bytes allocated
    at 96, epilogue right after) to a 40-byte request extends the heap in
    place. -/
theorem c6_realloc_extend_at_tail_witness :
    (heapB.brk + (adjust_size 40 - GET_SIZE heapB.mem (HDRP 96)) ≤ heapB.maxAddr →
      ∃ s2, mm_realloc heapB 3 96 40 = some (96, s2) ∧
        s2.brk = heapB.brk + (adjust_size 40 - GET_SIZE heapB.mem (HDRP 96)) ∧
        s2.segList = heapB.segList ∧ s2.lo = heapB.lo ∧ s2.maxAddr = heapB.maxAddr ∧
        GET_SIZE s2.mem (HDRP 96) = adjust_size 40 ∧
        GET_ALLOC s2.mem (HDRP 96) = 1 ∧
        s2.mem (96 + adjust_size 40 - 8) = adjust_size 40 + 1 ∧
        GET_SIZE s2.mem (HDRP (NEXT_BLKP s2.mem 96)) = 0 ∧
        GET_ALLOC s2.mem (HDRP (NEXT_BLKP s2.mem 96)) = 1 ∧
        (∀ a, a < 96 + GET_SIZE heapB.mem (HDRP 96) - 8 → 96 ≤ a →
          s2.mem a = heapB.mem a)) ∧
    (¬ (heapB.brk + (adjust_size 40 - GET_SIZE heapB.mem (HDRP 96)) ≤ heapB.maxAddr) →
      mm_realloc heapB 3 96 40 = some (0, heapB)) :=
  c6_realloc_extend_at_tail heapB 3 96 40 (by decide) (by decide) (by decide)
    (by decide) (by decide)

/-! ### Free-list chain machinery -/

/-- `chainSegB m root stop l`: following successor links from `root`
    visits exactly the nonzero nodes `l` and then reads `stop`. -/
def chainSegB (m : Mem) : Nat → Nat → List Nat → Bool
  | root, stop, [] => root == stop
  | root, stop, x :: r => root == x && (x != 0) && chainSegB m (GET_SUCC m x) stop r

/-- A full NULL-terminated free list rooted at `root`. -/
def isChainB (m : Mem) (root : Nat) (l : List Nat) : Bool := chainSegB m root 0 l

/-- `predChainB m prev l`: along `l` every node's predecessor slot holds
    the node before it, with `prev` before the head. -/
def predChainB (m : Mem) : Nat → List Nat → Bool
  | _, [] => true
  | prev, x :: r => GET_PRED m x == prev && predChainB m x r

theorem chainSegB_head (m : Mem) (root stop : Nat) (l : List Nat)
    (h : chainSegB m root stop l = true) : root = l.headD stop := by
  cases l with
  | nil => simpa [chainSegB] using h
  | cons x r =>
    simp only [chainSegB, Bool.and_eq_true, beq_iff_eq] at h
    simpa using h.1.1

theorem chainSegB_ne_zero (m : Mem) (stop : Nat) :
    ∀ (l : List Nat) (root : Nat), chainSegB m root stop l = true → ∀ x ∈ l, x ≠ 0 := by
  intro l
  induction l with
  | nil => intro root h x hx; simp at hx
  | cons y r ih =>
    intro root h x hx
    simp only [chainSegB, Bool.and_eq_true, beq_iff_eq, bne_iff_ne, ne_eq] at h
    rcases List.mem_cons.mp hx with rfl | hmem
    · exact h.1.2
    · exact ih _ h.2 x hmem

theorem chainSegB_append (m : Mem) (stop : Nat) (l2 : List Nat) :
    ∀ (l1 : List Nat) (root : Nat),
      chainSegB m root stop (l1 ++ l2) =
        (chainSegB m root (l2.headD stop) l1 && chainSegB m (l2.headD stop) stop l2) := by
  intro l1
  induction l1 with
  | nil =>
    intro root
    cases l2 with
    | nil => simp [chainSegB]
    | cons y r =>
      simp only [List.nil_append, List.headD_cons, chainSegB]
      cases hr : (root == y) with
      | false => simp [hr]
      | true => simp [hr, beq_iff_eq.mp hr]
  | cons x t ih =>
    intro root
    simp only [List.cons_append, chainSegB, List.append_eq]
    rw [ih (GET_SUCC m x)]
    simp only [Bool.and_assoc]

theorem chainSegB_frame (m m2 : Mem) (stop : Nat) :
    ∀ (l : List Nat) (root : Nat),
      (∀ x ∈ l, m2 (SUCC_PTR x) = m (SUCC_PTR x)) →
      chainSegB m2 root stop l = chainSegB m root stop l := by
  intro l
  induction l with
  | nil => intro root h; rfl
  | cons x r ih =>
    intro root h
    simp only [chainSegB, GET_SUCC]
    rw [h x (List.mem_cons_self x r)]
    rw [ih (m (SUCC_PTR x)) (fun y hy => h y (List.mem_cons_of_mem _ hy))]

theorem predChainB_append (m : Mem) (l2 : List Nat) :
    ∀ (l1 : List Nat) (p : Nat),
      predChainB m p (l1 ++ l2) =
        (predChainB m p l1 && predChainB m (l1.getLastD p) l2) := by
  intro l1
  induction l1 with
  | nil => intro p; simp [predChainB]
  | cons x t ih =>
    intro p
    simp only [List.cons_append, predChainB, List.append_eq]
    rw [ih x]
    simp only [List.getLastD_cons, Bool.and_assoc]

theorem predChainB_frame (m m2 : Mem) :
    ∀ (l : List Nat) (p : Nat),
      (∀ x ∈ l, m2 (PRED_PTR x) = m (PRED_PTR x)) →
      predChainB m2 p l = predChainB m p l := by
  intro l
  induction l with
  | nil => intro p h; rfl
  | cons x r ih =>
    intro p h
    simp only [predChainB, GET_PRED]
    rw [h x (List.mem_cons_self x r)]
    rw [ih x (fun y hy => h y (List.mem_cons_of_mem _ hy))]

/-- `delete_node` when `bp` has neither predecessor nor successor: only
    the list head is redirected. -/
theorem delete_node_lone (s : MMState) (bp : Nat)
    (hpred0 : GET_PRED s.mem bp = 0) (hsucc0 : GET_SUCC s.mem bp = 0) :
    delete_node s bp = { s with segList := (setSeg s.segList
      (get_list_index (GET_SIZE s.mem (HDRP bp))) (GET_SUCC s.mem bp)) } := by
  simp only [delete_node]
  rw [if_neg (by simp [hpred0, hsucc0]), if_neg (by simp [hpred0])]

/-- `delete_node` of a list head with a successor: the head is redirected
    and the successor's predecessor slot is cleared. -/
theorem delete_node_head (s : MMState) (bp : Nat)
    (hpred0 : GET_PRED s.mem bp = 0) (hsucc0 : GET_SUCC s.mem bp ≠ 0) :
    delete_node s bp = { s with
      mem := (PUT s.mem (PRED_PTR (GET_SUCC s.mem bp)) (GET_PRED s.mem bp)),
      segList := (setSeg s.segList
        (get_list_index (GET_SIZE s.mem (HDRP bp))) (GET_SUCC s.mem bp)) } := by
  simp only [delete_node]
  rw [if_pos (by simp [hpred0]; exact hsucc0), if_neg (by simp [hpred0])]

/-- `delete_node` of a list tail with predecessor `pl`: only the
    predecessor's successor slot is rewritten. -/
theorem delete_node_tail (s : MMState) (bp pl : Nat)
    (hpred0 : GET_PRED s.mem bp = pl) (hpl : pl ≠ 0) (hplbp : pl ≠ bp)
    (hsucc0 : GET_SUCC s.mem bp = 0) :
    delete_node s bp = { s with mem := PUT s.mem (SUCC_PTR pl) (GET_SUCC s.mem bp) } := by
  have hkeep : ∀ v, GET_SUCC (PUT s.mem (SUCC_PTR pl) v) bp = GET_SUCC s.mem bp := by
    intro v
    simp only [GET_SUCC, SUCC_PTR]
    rw [PUT_elsewhere _ _ _ _ (show bp + 4 ≠ pl + 4 by omega)]
  simp only [delete_node]
  rw [if_neg (by
    simp [hpred0, hpl]
    rw [hkeep]
    simpa using hsucc0), if_pos (by simp [hpred0, hpl]), hpred0]

/-- `delete_node` of an interior node, predecessor `pl`, with a successor:
    both neighbours are restitched. -/
theorem delete_node_mid (s : MMState) (bp pl : Nat)
    (hpred0 : GET_PRED s.mem bp = pl) (hpl : pl ≠ 0) (hplbp : pl ≠ bp)
    (hsucc0 : GET_SUCC s.mem bp ≠ 0)
    (hpal : pl % 8 = 0) (hbal : bp % 8 = 0) :
    delete_node s bp = { s with
      mem := (PUT (PUT s.mem (SUCC_PTR pl) (GET_SUCC s.mem bp))
        (PRED_PTR (GET_SUCC s.mem bp)) (GET_PRED s.mem bp)) } := by
  have hkeep : ∀ v, GET_SUCC (PUT s.mem (SUCC_PTR pl) v) bp = GET_SUCC s.mem bp := by
    intro v
    simp only [GET_SUCC, SUCC_PTR]
    rw [PUT_elsewhere _ _ _ _ (show bp + 4 ≠ pl + 4 by omega)]
  have hkeep2 : ∀ v, GET_PRED (PUT s.mem (SUCC_PTR pl) v) bp = GET_PRED s.mem bp := by
    intro v
    simp only [GET_PRED, PRED_PTR, SUCC_PTR]
    rw [PUT_elsewhere _ _ _ _ (show bp ≠ pl + 4 by omega)]
  simp only [delete_node]
  rw [if_pos (by simp [hpred0, hpl]; rw [hkeep]; simpa using hsucc0),
    if_pos (by simp [hpred0, hpl])]
  simp [hpred0, hkeep, hkeep2]

/-- Specification of `delete_node` on a well-formed doubly linked class
    list `l1 ++ bp :: l2` rooted at `seg_list[idx]`: the node `bp` is
    unlinked (the chain becomes `l1 ++ l2`, still predecessor-consistent),
    other list heads are untouched, and the only memory writes land in the
    link slots of the chain nodes. -/
theorem delete_node_spec (s : MMState) (bp idx : Nat) (l1 l2 : List Nat)
    (hidx : idx = get_list_index (GET_SIZE s.mem (HDRP bp)))
    (hch : isChainB s.mem (s.segList idx) (l1 ++ bp :: l2) = true)
    (hpc : predChainB s.mem 0 (l1 ++ bp :: l2) = true)
    (hnd : (l1 ++ bp :: l2).Nodup)
    (hal : ∀ x ∈ l1 ++ bp :: l2, x % 8 = 0)
    (hlt : ∀ x ∈ l1 ++ bp :: l2, x < 2 ^ 32) :
    isChainB (delete_node s bp).mem ((delete_node s bp).segList idx) (l1 ++ l2) = true ∧
    predChainB (delete_node s bp).mem 0 (l1 ++ l2) = true ∧
    (∀ j, j ≠ idx → (delete_node s bp).segList j = s.segList j) ∧
    (∀ a, (∀ x ∈ l1 ++ bp :: l2, a ≠ x ∧ a ≠ x + 4) → (delete_node s bp).mem a = s.mem a) ∧
    (delete_node s bp).lo = s.lo ∧ (delete_node s bp).brk = s.brk ∧
    (delete_node s bp).maxAddr = s.maxAddr := by
  -- decompose the chain and predecessor hypotheses at bp
  have hch' := hch
  rw [isChainB, chainSegB_append] at hch'
  simp only [List.headD_cons, Bool.and_eq_true] at hch'
  obtain ⟨hseg1, hseg2'⟩ := hch'
  have hbp0 : bp ≠ 0 :=
    chainSegB_ne_zero s.mem 0 _ _ hseg2' bp (List.mem_cons_self _ _)
  have hseg2 : chainSegB s.mem (GET_SUCC s.mem bp) 0 l2 = true := by
    simp only [chainSegB, Bool.and_eq_true] at hseg2'
    exact hseg2'.2
  have hpc' := hpc
  rw [predChainB_append, Bool.and_eq_true] at hpc'
  obtain ⟨hpc1, hpc2'⟩ := hpc'
  have hpred0 : GET_PRED s.mem bp = l1.getLastD 0 := by
    simp only [predChainB, Bool.and_eq_true, beq_iff_eq] at hpc2'
    exact hpc2'.1
  have hpc2 : predChainB s.mem bp l2 = true := by
    simp only [predChainB, Bool.and_eq_true] at hpc2'
    exact hpc2'.2
  have hsucc0 : GET_SUCC s.mem bp = l2.headD 0 := chainSegB_head _ _ _ _ hseg2
  have hbal : bp % 8 = 0 := hal bp (by simp)
  have hnd' := hnd
  rw [List.nodup_append] at hnd'
  obtain ⟨hndl1, hndbpl2, hdisj⟩ := hnd'
  have hbpl2 : bp ∉ l2 := (List.nodup_cons.mp hndbpl2).1
  have hndl2 : l2.Nodup := (List.nodup_cons.mp hndbpl2).2
  rcases List.eq_nil_or_concat l1 with rfl | ⟨t, pl, hl1⟩
  · -- bp is the head of its list
    have hpredA : GET_PRED s.mem bp = 0 := by simpa using hpred0
    have hrootA : s.segList idx = bp := by simpa [chainSegB] using hseg1
    cases l2 with
    | nil =>
      have hsuccA : GET_SUCC s.mem bp = 0 := by simpa using hsucc0
      rw [delete_node_lone s bp hpredA hsuccA, ← hidx]
      refine ⟨?_, rfl, ?_, fun a ha => rfl, rfl, rfl, rfl⟩
      · simp [setSeg, isChainB, chainSegB, hsuccA]
      · intro j hj; simp [setSeg, hj]
    | cons y r =>
      have hsuccA : GET_SUCC s.mem bp = y := by simpa using hsucc0
      have hynz : y ≠ 0 :=
        chainSegB_ne_zero s.mem 0 _ _ hseg2 y (by rw [hsuccA] at hseg2; simp)
      have hyal : y % 8 = 0 := hal y (by simp)
      rw [delete_node_head s bp hpredA (by rw [hsuccA]; exact hynz), ← hidx]
      have hmem' : ∀ a, a ≠ y →
          PUT s.mem (PRED_PTR (GET_SUCC s.mem bp)) (GET_PRED s.mem bp) a = s.mem a := by
        intro a ha
        rw [hsuccA, hpredA, PRED_PTR, PUT_elsewhere _ _ _ _ ha]
      refine ⟨?_, ?_, ?_, ?_, rfl, rfl, rfl⟩
      · show isChainB _ (setSeg s.segList idx (GET_SUCC s.mem bp) idx) _ = true
        have hroot2 : setSeg s.segList idx (GET_SUCC s.mem bp) idx = y := by
          simp [setSeg, hsuccA]
        rw [isChainB, hroot2, List.nil_append]
        rw [chainSegB_frame s.mem _ 0 (y :: r) y
          (fun x hx => hmem' (SUCC_PTR x) (by
            have := hal x (by simp [hx])
            simp only [SUCC_PTR]
            omega))]
        rw [hsuccA] at hseg2
        exact hseg2
      · show predChainB _ 0 ([] ++ y :: r) = true
        simp only [List.nil_append, predChainB, Bool.and_eq_true, beq_iff_eq]
        constructor
        · rw [GET_PRED, PRED_PTR, hsuccA, hpredA, PRED_PTR, PUT_at]
          omega
        · rw [predChainB_frame s.mem _ r y (fun x hx => hmem' (PRED_PTR x) (by
            have hxy : x ≠ y := by
              intro hcon
              rw [hcon] at hx
              exact (List.nodup_cons.mp hndl2).1 hx
            simpa [PRED_PTR] using hxy))]
          simp only [predChainB, Bool.and_eq_true] at hpc2
          exact hpc2.2
      · intro j hj; simp [setSeg, hj]
      · intro a ha
        exact hmem' a (ha y (by simp)).1
  · -- bp has a predecessor: the last node pl of l1 = t ++ [pl]
    have hl1' : l1 = t ++ [pl] := by simpa [List.concat_eq_append] using hl1
    subst hl1'
    have hplmem : pl ∈ t ++ [pl] := by simp
    have hplnz : pl ≠ 0 := chainSegB_ne_zero s.mem bp _ _ hseg1 pl hplmem
    have hpredB : GET_PRED s.mem bp = pl := by
      rw [hpred0, List.getLastD_concat]
    have hplbp : pl ≠ bp := by
      intro hcon
      have hmem2 : pl ∈ bp :: l2 := by rw [hcon]; exact List.mem_cons_self _ _
      exact hdisj hplmem hmem2
    have hpal : pl % 8 = 0 := hal pl (by simp)
    have hplt : pl ∉ t := by
      rw [List.nodup_append] at hndl1
      intro hcon
      exact hndl1.2.2 hcon (by simp)
    -- split the l1 chain at pl
    have hseg1' := hseg1
    rw [chainSegB_append] at hseg1'
    simp only [List.headD_cons, Bool.and_eq_true] at hseg1'
    obtain ⟨hsegt, hsegpl⟩ := hseg1'
    have hplsucc : GET_SUCC s.mem pl = bp := by
      simp only [chainSegB, Bool.and_eq_true, beq_iff_eq] at hsegpl
      exact hsegpl.2
    cases l2 with
    | nil =>
      have hsuccB : GET_SUCC s.mem bp = 0 := by simpa using hsucc0
      rw [delete_node_tail s bp pl hpredB hplnz hplbp hsuccB]
      have hmem' : ∀ a, a ≠ pl + 4 →
          PUT s.mem (SUCC_PTR pl) (GET_SUCC s.mem bp) a = s.mem a := by
        intro a ha
        rw [SUCC_PTR, PUT_elsewhere _ _ _ _ ha]
      refine ⟨?_, ?_, fun j hj => rfl, ?_, rfl, rfl, rfl⟩
      · rw [isChainB, List.append_nil, chainSegB_append]
        simp only [List.headD_cons, Bool.and_eq_true]
        constructor
        · rw [chainSegB_frame s.mem _ pl t (s.segList idx) (fun x hx => hmem' (SUCC_PTR x) (by
            have hxpl : x ≠ pl := fun hcon => hplt (hcon ▸ hx)
            simp only [SUCC_PTR]
            omega))]
          exact hsegt
        · simp only [chainSegB, Bool.and_eq_true, beq_iff_eq, bne_iff_ne]
          refine ⟨⟨trivial, hplnz⟩, ?_⟩
          have hsuccB2 : s.mem (bp + 4) = 0 := by simpa [GET_SUCC, SUCC_PTR] using hsuccB
          simp only [GET_SUCC, SUCC_PTR, PUT_at, hsuccB2, Nat.zero_mod]
      · rw [List.append_nil]
        rw [predChainB_frame s.mem _ (t ++ [pl]) 0 (fun x hx => hmem' (PRED_PTR x) (by
          have := hal x (List.mem_append_left _ hx)
          simp only [PRED_PTR]
          omega))]
        exact hpc1
      · intro a ha
        exact hmem' a (ha pl (by simp)).2
    | cons y r =>
      have hsuccB : GET_SUCC s.mem bp = y := by simpa using hsucc0
      have hynz : y ≠ 0 :=
        chainSegB_ne_zero s.mem 0 _ _ hseg2 y (by rw [hsuccB] at hseg2; simp)
      have hyal : y % 8 = 0 := hal y (by simp)
      have hylt : y < 2 ^ 32 := hlt y (by simp)
      have hypl : y ≠ pl := by
        intro hcon
        have hmem2 : pl ∈ bp :: y :: r := by
          rw [← hcon]
          exact List.mem_cons_of_mem _ (List.mem_cons_self _ _)
        exact hdisj hplmem hmem2
      have hynr : y ∉ r := (List.nodup_cons.mp hndl2).1
      rw [delete_node_mid s bp pl hpredB hplnz hplbp (by rw [hsuccB]; exact hynz) hpal hbal]
      have hmem' : ∀ a, a ≠ pl + 4 → a ≠ y →
          PUT (PUT s.mem (SUCC_PTR pl) (GET_SUCC s.mem bp))
            (PRED_PTR (GET_SUCC s.mem bp)) (GET_PRED s.mem bp) a = s.mem a := by
        intro a ha1 ha2
        rw [hsuccB, hpredB, PRED_PTR, PUT_elsewhere _ _ _ _ ha2, SUCC_PTR,
          PUT_elsewhere _ _ _ _ ha1]
      refine ⟨?_, ?_, fun j hj => rfl, ?_, rfl, rfl, rfl⟩
      · rw [isChainB, chainSegB_append]
        simp only [List.headD_cons, Bool.and_eq_true]
        constructor
        · rw [chainSegB_append]
          simp only [List.headD_cons, Bool.and_eq_true]
          constructor
          · rw [chainSegB_frame s.mem _ pl t (s.segList idx) (fun x hx => hmem' (SUCC_PTR x)
              (by
                have hxpl : x ≠ pl := fun hcon => hplt (hcon ▸ hx)
                simp only [SUCC_PTR]
                omega)
              (by
                have := hal x (List.mem_append_left _ (List.mem_append_left _ hx))
                simp only [SUCC_PTR]
                omega))]
            exact hsegt
          · simp only [chainSegB, Bool.and_eq_true, beq_iff_eq, bne_iff_ne]
            refine ⟨⟨trivial, hplnz⟩, ?_⟩
            have hsuccB2 : s.mem (bp + 4) = y := by simpa [GET_SUCC, SUCC_PTR] using hsuccB
            simp only [GET_SUCC, SUCC_PTR, PRED_PTR, hsuccB2]
            rw [PUT_elsewhere _ _ _ _ (show pl + 4 ≠ y by omega), PUT_at,
              Nat.mod_eq_of_lt hylt]
        · rw [chainSegB_frame s.mem _ 0 (y :: r) y (fun x hx => hmem' (SUCC_PTR x)
            (by
              have hxpl : x ≠ pl := by
                intro hcon
                have hmem2 : pl ∈ bp :: y :: r := by
                  rw [← hcon]
                  exact List.mem_cons_of_mem _ hx
                exact hdisj hplmem hmem2
              simp only [SUCC_PTR]
              omega)
            (by
              have := hal x (by simp [List.mem_cons_of_mem, hx])
              simp only [SUCC_PTR]
              omega))]
          rw [hsuccB] at hseg2
          exact hseg2
      · rw [predChainB_append]
        simp only [Bool.and_eq_true]
        constructor
        · rw [predChainB_frame s.mem _ (t ++ [pl]) 0 (fun x hx => hmem' (PRED_PTR x)
            (by
              have := hal x (List.mem_append_left _ hx)
              simp only [PRED_PTR]
              omega)
            (by
              have hxy : x ≠ y := by
                intro hcon
                have h1 : y ∈ t ++ [pl] := by rw [← hcon]; exact hx
                exact hdisj h1 (List.mem_cons_of_mem _ (List.mem_cons_self _ _))
              simpa [PRED_PTR] using hxy))]
          exact hpc1
        · rw [List.getLastD_concat]
          simp only [predChainB, Bool.and_eq_true, beq_iff_eq]
          constructor
          · rw [GET_PRED, PRED_PTR, hsuccB, hpredB, PRED_PTR, PUT_at,
              Nat.mod_eq_of_lt (hlt pl (List.mem_append_left _ hplmem))]
          · rw [predChainB_frame s.mem _ r y (fun x hx => hmem' (PRED_PTR x)
              (by
                have := hal x (by simp [List.mem_cons_of_mem, hx])
                simp only [PRED_PTR]
                omega)
              (by
                have hxy : x ≠ y := fun hcon => hynr (hcon ▸ hx)
                simpa [PRED_PTR] using hxy))]
            simp only [predChainB, Bool.and_eq_true] at hpc2
            exact hpc2.2
      · intro a ha
        exact hmem' a (ha pl (List.mem_append_left _ hplmem)).2 (ha y (by simp)).1

/-! ### C5: realloc policy 2 (absorb the next free block, no split) -/

/-- Claim C5: when the growth request does not fit in place (policy 1
    fails), the address-next block is free, and the combined size covers
    the request, `mm_realloc` removes the next block from its class list
    (the chain `l1 ++ next :: l2` becomes `l1 ++ l2`), rewrites the tags of
    `ptr` to `(old_size + next.size, allocated)` without splitting the
    surplus, and returns `ptr` with its payload bytes untouched. -/
theorem c5_realloc_absorb_next_free (s : MMState) (fuel ptr size idx : Nat)
    (l1 l2 : List Nat)
    (hptr : ptr ≠ 0) (hp8 : 8 ≤ ptr) (hsize : size ≠ 0)
    (h16 : 16 ≤ GET_SIZE s.mem (HDRP ptr))
    (hgrow : GET_SIZE s.mem (HDRP ptr) < adjust_size size)
    (hfree : GET_ALLOC s.mem (HDRP (NEXT_BLKP s.mem ptr)) = 0)
    (hcomb : adjust_size size ≤
      GET_SIZE s.mem (HDRP ptr) + GET_SIZE s.mem (HDRP (NEXT_BLKP s.mem ptr)))
    (hsum : GET_SIZE s.mem (HDRP ptr) + GET_SIZE s.mem (HDRP (NEXT_BLKP s.mem ptr)) < 2 ^ 32)
    (hidx : idx = get_list_index (GET_SIZE s.mem (HDRP (NEXT_BLKP s.mem ptr))))
    (hch : isChainB s.mem (s.segList idx) (l1 ++ NEXT_BLKP s.mem ptr :: l2) = true)
    (hpc : predChainB s.mem 0 (l1 ++ NEXT_BLKP s.mem ptr :: l2) = true)
    (hnd : (l1 ++ NEXT_BLKP s.mem ptr :: l2).Nodup)
    (hal : ∀ x ∈ l1 ++ NEXT_BLKP s.mem ptr :: l2, x % 8 = 0)
    (hlt : ∀ x ∈ l1 ++ NEXT_BLKP s.mem ptr :: l2, x < 2 ^ 32)
    (hsep : ∀ x ∈ l1 ++ l2, x + 8 ≤ ptr - 4 ∨
      ptr + (GET_SIZE s.mem (HDRP ptr) + GET_SIZE s.mem (HDRP (NEXT_BLKP s.mem ptr))) ≤ x) :
    ∃ s2, mm_realloc s fuel ptr size = some (ptr, s2) ∧
      GET_SIZE s2.mem (HDRP ptr) =
        GET_SIZE s.mem (HDRP ptr) + GET_SIZE s.mem (HDRP (NEXT_BLKP s.mem ptr)) ∧
      GET_ALLOC s2.mem (HDRP ptr) = 1 ∧
      s2.mem (ptr + (GET_SIZE s.mem (HDRP ptr) +
          GET_SIZE s.mem (HDRP (NEXT_BLKP s.mem ptr))) - 8) =
        GET_SIZE s.mem (HDRP ptr) + GET_SIZE s.mem (HDRP (NEXT_BLKP s.mem ptr)) + 1 ∧
      isChainB s2.mem (s2.segList idx) (l1 ++ l2) = true ∧
      predChainB s2.mem 0 (l1 ++ l2) = true ∧
      (∀ j, j ≠ idx → s2.segList j = s.segList j) ∧
      (∀ a, a < ptr + GET_SIZE s.mem (HDRP ptr) - 8 → ptr ≤ a → s2.mem a = s.mem a) ∧
      s2.brk = s.brk ∧ s2.lo = s.lo ∧ s2.maxAddr = s.maxAddr := by
  obtain ⟨hchain1, hpc1, hseg1, hframe1, hlo1, hbrk1, hmax1⟩ :=
    delete_node_spec s (NEXT_BLKP s.mem ptr) idx l1 l2 hidx hch hpc hnd hal hlt
  have hos8 : GET_SIZE s.mem (HDRP ptr) % 8 = 0 := GET_SIZE_mod8 _ _
  have hns8 : GET_SIZE s.mem (HDRP (NEXT_BLKP s.mem ptr)) % 8 = 0 := GET_SIZE_mod8 _ _
  have hmod : (GET_SIZE s.mem (HDRP ptr) + GET_SIZE s.mem (HDRP (NEXT_BLKP s.mem ptr)))
      % 2 ^ 32 = GET_SIZE s.mem (HDRP ptr) + GET_SIZE s.mem (HDRP (NEXT_BLKP s.mem ptr)) :=
    Nat.mod_eq_of_lt hsum
  -- steer mm_realloc into the policy-2 branch
  rw [mm_realloc, if_neg hptr, if_neg hsize, if_neg (by omega),
    if_pos (by rw [hmod]; exact ⟨hfree, hcomb⟩)]
  have hhdr := stored_tag (delete_node s (NEXT_BLKP s.mem ptr)).mem (HDRP ptr)
    ((GET_SIZE s.mem (HDRP ptr) + GET_SIZE s.mem (HDRP (NEXT_BLKP s.mem ptr))) % 2 ^ 32) 1
    (by omega) (by omega) (by omega)
  set m1 := PUT (delete_node s (NEXT_BLKP s.mem ptr)).mem (HDRP ptr)
    (PACK ((GET_SIZE s.mem (HDRP ptr) + GET_SIZE s.mem (HDRP (NEXT_BLKP s.mem ptr)))
      % 2 ^ 32) 1) with hm1
  have hm1h : m1 (HDRP ptr) =
      GET_SIZE s.mem (HDRP ptr) + GET_SIZE s.mem (HDRP (NEXT_BLKP s.mem ptr)) + 1 := by
    rw [hhdr.1, hmod]
  have hm1sz : GET_SIZE m1 (HDRP ptr) =
      GET_SIZE s.mem (HDRP ptr) + GET_SIZE s.mem (HDRP (NEXT_BLKP s.mem ptr)) := by
    rw [hhdr.2.1, hmod]
  have hftr : FTRP m1 ptr =
      ptr + (GET_SIZE s.mem (HDRP ptr) + GET_SIZE s.mem (HDRP (NEXT_BLKP s.mem ptr))) - 8 := by
    rw [FTRP, hm1sz]
  set m2 := PUT m1 (FTRP m1 ptr)
    (PACK ((GET_SIZE s.mem (HDRP ptr) + GET_SIZE s.mem (HDRP (NEXT_BLKP s.mem ptr)))
      % 2 ^ 32) 1) with hm2
  have hm2h : m2 (HDRP ptr) =
      GET_SIZE s.mem (HDRP ptr) + GET_SIZE s.mem (HDRP (NEXT_BLKP s.mem ptr)) + 1 := by
    rw [hm2, hftr, PUT_elsewhere _ _ _ _ (by rw [HDRP]; omega), hm1h]
  have hm2f : m2 (ptr + (GET_SIZE s.mem (HDRP ptr) +
      GET_SIZE s.mem (HDRP (NEXT_BLKP s.mem ptr))) - 8) =
      GET_SIZE s.mem (HDRP ptr) + GET_SIZE s.mem (HDRP (NEXT_BLKP s.mem ptr)) + 1 := by
    have h2 := stored_tag m1 (FTRP m1 ptr)
      ((GET_SIZE s.mem (HDRP ptr) + GET_SIZE s.mem (HDRP (NEXT_BLKP s.mem ptr))) % 2 ^ 32) 1
      (by omega) (by omega) (by omega)
    have h3 := h2.1
    rw [hftr] at h3
    rw [hm2, hftr, h3, hmod]
  -- the two tag writes land outside every link slot of l1 ++ l2
  have hm2frame : ∀ x ∈ l1 ++ l2, ∀ v, v ≤ 4 →
      m2 (x + v) = (delete_node s (NEXT_BLKP s.mem ptr)).mem (x + v) := by
    intro x hx v hv
    rcases hsep x hx with hlow | hhigh
    · rw [hm2, hftr, PUT_elsewhere _ _ _ _ (by omega), hm1, HDRP,
        PUT_elsewhere _ _ _ _ (by omega)]
    · rw [hm2, hftr, PUT_elsewhere _ _ _ _ (by omega), hm1, HDRP,
        PUT_elsewhere _ _ _ _ (by omega)]
  refine ⟨_, rfl, ?_, ?_, ?_, ?_, ?_, ?_, ?_, ?_, ?_, ?_⟩
  · show GET_SIZE m2 (HDRP ptr) = _
    rw [GET_SIZE, hm2h]
    omega
  · show GET_ALLOC m2 (HDRP ptr) = 1
    rw [GET_ALLOC, hm2h]
    omega
  · exact hm2f
  · show isChainB m2 ((delete_node s (NEXT_BLKP s.mem ptr)).segList idx) (l1 ++ l2) = true
    rw [isChainB, chainSegB_frame (delete_node s (NEXT_BLKP s.mem ptr)).mem m2 0 (l1 ++ l2) _
      (fun x hx => by
        have h0 := hm2frame x hx 4 (le_refl 4)
        simpa [SUCC_PTR] using h0)]
    exact hchain1
  · show predChainB m2 0 (l1 ++ l2) = true
    rw [predChainB_frame (delete_node s (NEXT_BLKP s.mem ptr)).mem m2 (l1 ++ l2) 0
      (fun x hx => by
        have h0 := hm2frame x hx 0 (by omega)
        simpa [PRED_PTR] using h0)]
    exact hpc1
  · exact hseg1
  · show ∀ a, a < ptr + GET_SIZE s.mem (HDRP ptr) - 8 → ptr ≤ a → m2 a = s.mem a
    intro a ha1 ha2
    rw [hm2, hftr, PUT_elsewhere _ _ _ _ (by omega), hm1, HDRP,
      PUT_elsewhere _ _ _ _ (by omega)]
    refine hframe1 a ?_
    intro x hx
    rcases List.mem_append.mp hx with h | h
    · rcases hsep x (List.mem_append_left _ h) with hlow | hhigh
      · constructor <;> omega
      · constructor <;> omega
    · rcases List.mem_cons.mp h with hxe | h2
      · rw [hxe, NEXT_BLKP]
        have hhd : GET_SIZE s.mem (ptr - 4) = GET_SIZE s.mem (HDRP ptr) := rfl
        constructor <;> omega
      · rcases hsep x (List.mem_append_right _ h2) with hlow | hhigh
        · constructor <;> omega
        · constructor <;> omega
  · exact hbrk1
  · exact hlo1
  · exact hmax1

/-- A heap with a 24-byte allocated block at 96 followed by a free
    16-byte block at 120 (class 0, empty links), epilogue at 132. -/
def memD : Mem := fun a =>
  if a = 84 then 9 else if a = 88 then 9
  else if a = 92 then 25 else if a = 112 then 25
  else if a = 116 then 16 else if a = 128 then 16
  else if a = 132 then 1 else 0

/-- The heap over `memD`, class 0 rooted at 120. -/
def heapD : MMState :=
  { mem := memD, segList := fun j => if j = 0 then 120 else 0,
    lo := 0, brk := 136, maxAddr := 8192 }

/-- Witness for C5: growing the 24-byte block of `heapD` to a 20-byte
    request absorbs the free 16-byte neighbour whole. -/
theorem c5_realloc_absorb_next_free_witness :
    ∃ s2, mm_realloc heapD 3 96 20 = some (96, s2) ∧
      GET_SIZE s2.mem (HDRP 96) =
        GET_SIZE heapD.mem (HDRP 96) + GET_SIZE heapD.mem (HDRP (NEXT_BLKP heapD.mem 96)) ∧
      GET_ALLOC s2.mem (HDRP 96) = 1 ∧
      s2.mem (96 + (GET_SIZE heapD.mem (HDRP 96) +
          GET_SIZE heapD.mem (HDRP (NEXT_BLKP heapD.mem 96))) - 8) =
        GET_SIZE heapD.mem (HDRP 96) + GET_SIZE heapD.mem (HDRP (NEXT_BLKP heapD.mem 96)) + 1 ∧
      isChainB s2.mem (s2.segList 0) ([] ++ []) = true ∧
      predChainB s2.mem 0 ([] ++ []) = true ∧
      (∀ j, j ≠ 0 → s2.segList j = heapD.segList j) ∧
      (∀ a, a < 96 + GET_SIZE heapD.mem (HDRP 96) - 8 → 96 ≤ a → s2.mem a = heapD.mem a) ∧
      s2.brk = heapD.brk ∧ s2.lo = heapD.lo ∧ s2.maxAddr = heapD.maxAddr :=
  c5_realloc_absorb_next_free heapD 3 96 20 0 [] []
    (by decide) (by decide) (by decide) (by decide) (by decide) (by decide)
    (by decide) (by norm_num [GET_SIZE, HDRP, NEXT_BLKP, heapD, memD]) (by decide)
    (by decide) (by decide) (by decide) (by decide) (by decide) (by decide)

/-- Specification of `insert_node`: LIFO insertion makes `bp` the head of
    the class of `size`, clears its predecessor slot, links its successor
    slot to the old root, and writes nothing else (besides the old root's
    predecessor slot when the list was nonempty). -/
theorem insert_node_spec (t : MMState) (bp size : Nat)
    (hr1 : t.segList (get_list_index size) ≠ bp)
    (hr2 : t.segList (get_list_index size) ≠ bp + 4) :
    (insert_node t bp size).segList (get_list_index size) = bp ∧
    (∀ j, j ≠ get_list_index size → (insert_node t bp size).segList j = t.segList j) ∧
    (insert_node t bp size).mem bp = 0 ∧
    (insert_node t bp size).mem (bp + 4) = t.segList (get_list_index size) % 2 ^ 32 ∧
    (∀ a, a ≠ bp → a ≠ bp + 4 → a ≠ t.segList (get_list_index size) →
      (insert_node t bp size).mem a = t.mem a) ∧
    (insert_node t bp size).lo = t.lo ∧ (insert_node t bp size).brk = t.brk ∧
    (insert_node t bp size).maxAddr = t.maxAddr := by
  by_cases hroot : t.segList (get_list_index size) ≠ 0
  · refine ⟨?_, ?_, ?_, ?_, ?_, ?_, ?_, ?_⟩ <;>
      simp only [insert_node, if_pos hroot, PRED_PTR, SUCC_PTR]
    · simp [setSeg]
    · intro j hj; simp [setSeg, hj]
    · rw [PUT_elsewhere _ _ _ _ (fun hcon => hr1 hcon.symm), PUT_at]
      omega
    · rw [PUT_elsewhere _ _ _ _ (fun hcon => hr2 hcon.symm),
        PUT_elsewhere _ _ _ _ (by omega), PUT_at]
    · intro a ha1 ha2 ha3
      rw [PUT_elsewhere _ _ _ _ ha3, PUT_elsewhere _ _ _ _ ha1,
        PUT_elsewhere _ _ _ _ ha2]
  · have hroot0 : t.segList (get_list_index size) = 0 := by
      by_contra hcon
      exact hroot hcon
    refine ⟨?_, ?_, ?_, ?_, ?_, ?_, ?_, ?_⟩ <;>
      simp only [insert_node, if_neg hroot, PRED_PTR, SUCC_PTR]
    · simp [setSeg]
    · intro j hj; simp [setSeg, hj]
    · rw [PUT_at]
      omega
    · rw [PUT_elsewhere _ _ _ _ (by omega), PUT_at, hroot0]
    · intro a ha1 ha2 ha3
      rw [PUT_elsewhere _ _ _ _ ha1, PUT_elsewhere _ _ _ _ ha2]

theorem sub32_of_le (a b : Nat) (h : b ≤ a) (h2 : a < 2 ^ 32) : sub32 a b = a - b := by
  rw [sub32]
  omega

/-! ### C7: place removes, then splits at the 16-byte threshold -/

set_option maxHeartbeats 2000000 in
/-- Claim C7: `place(bp, asize)` on a free block of size `csize ≥ asize`
    first removes `bp` from its class list (the chain `l1 ++ bp :: l2`
    becomes `l1 ++ l2`).  When `csize - asize ≥ 16` it writes
    `(asize, allocated)` tags at `bp`, gives the remainder at `bp + asize`
    tags `(csize - asize, free)`, and LIFO-inserts the remainder into the
    class of `csize - asize`; otherwise (`csize - asize < 16`, an exact or
    near fit) it consumes the whole block with `(csize, allocated)` tags
    and no split, leaving the shortened chain intact. -/
theorem c7_place_split_threshold (s : MMState) (bp asize idx : Nat) (l1 l2 : List Nat)
    (hbal : bp % 8 = 0) (hp8 : 8 ≤ bp)
    (ha8 : asize % 8 = 0) (ha16 : 16 ≤ asize)
    (hfit : asize ≤ GET_SIZE s.mem (HDRP bp))
    (hidx : idx = get_list_index (GET_SIZE s.mem (HDRP bp)))
    (hch : isChainB s.mem (s.segList idx) (l1 ++ bp :: l2) = true)
    (hpc : predChainB s.mem 0 (l1 ++ bp :: l2) = true)
    (hnd : (l1 ++ bp :: l2).Nodup)
    (hal : ∀ x ∈ l1 ++ bp :: l2, x % 8 = 0)
    (hlt : ∀ x ∈ l1 ++ bp :: l2, x < 2 ^ 32)
    (hsep : ∀ x ∈ l1 ++ l2, x + 8 ≤ bp - 4 ∨ bp + GET_SIZE s.mem (HDRP bp) ≤ x)
    (hroot : ∀ j, j ≠ idx → s.segList j = 0 ∨ (s.segList j < 2 ^ 32 ∧
      (s.segList j + 8 ≤ bp - 4 ∨ bp + GET_SIZE s.mem (HDRP bp) ≤ s.segList j))) :
    isChainB (delete_node s bp).mem ((delete_node s bp).segList idx) (l1 ++ l2) = true ∧
    (16 ≤ GET_SIZE s.mem (HDRP bp) - asize →
      GET_SIZE (place s bp asize).mem (HDRP bp) = asize ∧
      GET_ALLOC (place s bp asize).mem (HDRP bp) = 1 ∧
      (place s bp asize).mem (bp + asize - 8) = asize + 1 ∧
      GET_SIZE (place s bp asize).mem (HDRP (bp + asize)) = GET_SIZE s.mem (HDRP bp) - asize ∧
      GET_ALLOC (place s bp asize).mem (HDRP (bp + asize)) = 0 ∧
      (place s bp asize).mem (bp + GET_SIZE s.mem (HDRP bp) - 8) =
        GET_SIZE s.mem (HDRP bp) - asize ∧
      (place s bp asize).segList (get_list_index (GET_SIZE s.mem (HDRP bp) - asize)) =
        bp + asize ∧
      GET_PRED (place s bp asize).mem (bp + asize) = 0 ∧
      GET_SUCC (place s bp asize).mem (bp + asize) =
        (delete_node s bp).segList (get_list_index (GET_SIZE s.mem (HDRP bp) - asize))) ∧
    (GET_SIZE s.mem (HDRP bp) - asize < 16 →
      GET_SIZE (place s bp asize).mem (HDRP bp) = GET_SIZE s.mem (HDRP bp) ∧
      GET_ALLOC (place s bp asize).mem (HDRP bp) = 1 ∧
      (place s bp asize).mem (bp + GET_SIZE s.mem (HDRP bp) - 8) =
        GET_SIZE s.mem (HDRP bp) + 1 ∧
      isChainB (place s bp asize).mem ((place s bp asize).segList idx) (l1 ++ l2) = true ∧
      predChainB (place s bp asize).mem 0 (l1 ++ l2) = true) := by
  obtain ⟨hchain1, hpc1, hseg1, hframe1, hlo1, hbrk1, hmax1⟩ :=
    delete_node_spec s bp idx l1 l2 hidx hch hpc hnd hal hlt
  have hcs8 : GET_SIZE s.mem (HDRP bp) % 8 = 0 := GET_SIZE_mod8 _ _
  have hcslt : GET_SIZE s.mem (HDRP bp) < 2 ^ 32 := GET_SIZE_lt_word _ _
  have hcsle : GET_SIZE s.mem (HDRP bp) ≤ 2 ^ 32 - 8 := GET_SIZE_le_word _ _
  have hsub : sub32 (GET_SIZE s.mem (HDRP bp)) asize =
      GET_SIZE s.mem (HDRP bp) - asize := sub32_of_le _ _ hfit hcslt
  have hH : HDRP bp = bp - 4 := rfl
  have hH2 : HDRP (bp + asize) = bp + asize - 4 := rfl
  refine ⟨hchain1, ?_, ?_⟩
  · -- split branch
    intro h16s
    have hneA : HDRP bp ≠ bp + asize - 8 := by omega
    have hneB : HDRP bp ≠ bp + asize - 4 := by omega
    have hneC : HDRP bp ≠ bp + GET_SIZE s.mem (HDRP bp) - 8 := by omega
    have hneD : bp + asize - 8 ≠ bp + asize - 4 := by omega
    have hneE : bp + asize - 8 ≠ bp + GET_SIZE s.mem (HDRP bp) - 8 := by omega
    have hneF : bp + asize - 4 ≠ bp + GET_SIZE s.mem (HDRP bp) - 8 := by omega
    set m1 := PUT (delete_node s bp).mem (HDRP bp) (PACK asize 1) with hm1d
    have ht1 := stored_tag (delete_node s bp).mem (HDRP bp) asize 1 ha8 (by omega) (by omega)
    have hm1h : m1 (HDRP bp) = asize + 1 := ht1.1
    have hm1sz : GET_SIZE m1 (HDRP bp) = asize := ht1.2.1
    have hftr1 : FTRP m1 bp = bp + asize - 8 := by rw [FTRP, hm1sz]
    set m2 := PUT m1 (FTRP m1 bp) (PACK asize 1) with hm2d
    have hm2h : m2 (HDRP bp) = asize + 1 := by
      rw [hm2d, hftr1, PUT_elsewhere _ _ _ _ hneA, hm1h]
    have hm2f : m2 (bp + asize - 8) = asize + 1 := by
      have h2 := stored_tag m1 (FTRP m1 bp) asize 1 ha8 (by omega) (by omega)
      have h3 := h2.1
      rw [hftr1] at h3
      rw [hm2d, hftr1, h3]
    have hm2sz : GET_SIZE m2 (HDRP bp) = asize := by
      rw [GET_SIZE, hm2h]
      omega
    have hbp2 : NEXT_BLKP m2 bp = bp + asize := by
      rw [NEXT_BLKP]
      have : GET_SIZE m2 (bp - 4) = asize := hm2sz
      rw [this]
    set m3 := PUT m2 (HDRP (NEXT_BLKP m2 bp)) (PACK (sub32 (GET_SIZE s.mem (HDRP bp)) asize) 0)
      with hm3d
    have hm3addr : HDRP (NEXT_BLKP m2 bp) = bp + asize - 4 := by rw [hbp2, HDRP]
    have ht3 := stored_tag m2 (HDRP (NEXT_BLKP m2 bp))
      (sub32 (GET_SIZE s.mem (HDRP bp)) asize) 0 (by rw [hsub]; omega)
      (by rw [hsub]; omega) (by omega)
    have hm3rem : m3 (bp + asize - 4) = GET_SIZE s.mem (HDRP bp) - asize := by
      have h4 := ht3.1
      rw [hm3addr] at h4
      rw [hm3d, hm3addr, h4, hsub]
      omega
    have hm3h : m3 (HDRP bp) = asize + 1 := by
      rw [hm3d, hm3addr, PUT_elsewhere _ _ _ _ hneB, hm2h]
    have hm3f : m3 (bp + asize - 8) = asize + 1 := by
      rw [hm3d, hm3addr, PUT_elsewhere _ _ _ _ hneD, hm2f]
    have hm3szr : GET_SIZE m3 (bp + asize - 4) = GET_SIZE s.mem (HDRP bp) - asize := by
      rw [GET_SIZE, hm3rem]
      omega
    have hftr3 : FTRP m3 (NEXT_BLKP m2 bp) = bp + GET_SIZE s.mem (HDRP bp) - 8 := by
      rw [FTRP, hbp2]
      have : GET_SIZE m3 (HDRP (bp + asize)) = GET_SIZE s.mem (HDRP bp) - asize := hm3szr
      rw [this]
      omega
    set m4 := PUT m3 (FTRP m3 (NEXT_BLKP m2 bp))
      (PACK (sub32 (GET_SIZE s.mem (HDRP bp)) asize) 0) with hm4d
    have hm4h : m4 (HDRP bp) = asize + 1 := by
      rw [hm4d, hftr3, PUT_elsewhere _ _ _ _ hneC, hm3h]
    have hm4f : m4 (bp + asize - 8) = asize + 1 := by
      rw [hm4d, hftr3, PUT_elsewhere _ _ _ _ hneE, hm3f]
    have hm4rem : m4 (bp + asize - 4) = GET_SIZE s.mem (HDRP bp) - asize := by
      rw [hm4d, hftr3, PUT_elsewhere _ _ _ _ hneF, hm3rem]
    have hm4remf : m4 (bp + GET_SIZE s.mem (HDRP bp) - 8) =
        GET_SIZE s.mem (HDRP bp) - asize := by
      have h5 := stored_tag m3 (FTRP m3 (NEXT_BLKP m2 bp))
        (sub32 (GET_SIZE s.mem (HDRP bp)) asize) 0 (by rw [hsub]; omega)
        (by rw [hsub]; omega) (by omega)
      have h6 := h5.1
      rw [hftr3] at h6
      rw [hm4d, hftr3, h6, hsub]
      omega
    -- the root of the remainder class is NULL or lies outside the block
    have hrootsep : (delete_node s bp).segList
        (get_list_index (GET_SIZE s.mem (HDRP bp) - asize)) = 0 ∨
        ((delete_node s bp).segList (get_list_index (GET_SIZE s.mem (HDRP bp) - asize)) <
          2 ^ 32 ∧
        ((delete_node s bp).segList (get_list_index (GET_SIZE s.mem (HDRP bp) - asize)) + 8 ≤
          bp - 4 ∨
         bp + GET_SIZE s.mem (HDRP bp) ≤
          (delete_node s bp).segList (get_list_index (GET_SIZE s.mem (HDRP bp) - asize)))) := by
      by_cases hcase : get_list_index (GET_SIZE s.mem (HDRP bp) - asize) = idx
      · rw [hcase]
        have hhead := chainSegB_head _ _ _ _ hchain1
        cases hl : (l1 ++ l2) with
        | nil =>
          rw [hl] at hhead
          simp at hhead
          exact Or.inl hhead
        | cons z r =>
          rw [hl] at hhead
          simp at hhead
          have hz : z ∈ l1 ++ l2 := by rw [hl]; exact List.mem_cons_self _ _
          have hz2 := hsep z hz
          have hz3 : z < 2 ^ 32 := by
            rcases List.mem_append.mp hz with h | h
            · exact hlt z (List.mem_append_left _ h)
            · exact hlt z (List.mem_append_right _ (List.mem_cons_of_mem _ h))
          rw [hhead]
          exact Or.inr ⟨hz3, hz2⟩
      · rw [hseg1 _ hcase]
        exact hroot _ hcase
    have hplace : place s bp asize =
        insert_node { delete_node s bp with mem := m4 } (NEXT_BLKP m2 bp)
          (sub32 (GET_SIZE s.mem (HDRP bp)) asize) := by
      rw [place, if_pos (by rw [hsub]; omega)]
    have hrootval : ({ delete_node s bp with mem := m4 } : MMState).segList
        (get_list_index (sub32 (GET_SIZE s.mem (HDRP bp)) asize)) =
        (delete_node s bp).segList (get_list_index (GET_SIZE s.mem (HDRP bp) - asize)) := by
      rw [hsub]
    obtain ⟨hi1, hi2, hi3, hi4, hi5, hi6, hi7, hi8⟩ :=
      insert_node_spec { delete_node s bp with mem := m4 } (NEXT_BLKP m2 bp)
        (sub32 (GET_SIZE s.mem (HDRP bp)) asize)
        (by
          rw [hrootval, hbp2]
          rcases hrootsep with h0 | ⟨hb, hsep2⟩
          · rw [h0]; omega
          · omega)
        (by
          rw [hrootval, hbp2]
          rcases hrootsep with h0 | ⟨hb, hsep2⟩
          · rw [h0]; omega
          · omega)
    rw [hrootval] at hi4 hi5
    refine ⟨?_, ?_, ?_, ?_, ?_, ?_, ?_, ?_, ?_⟩
    · rw [hplace, GET_SIZE, hi5 (HDRP bp) (by omega) (by omega)
        (by rcases hrootsep with h0 | ⟨hb, hsep2⟩ <;> omega)]
      show m4 (HDRP bp) % 2 ^ 32 / 8 * 8 = asize
      rw [hm4h]
      omega
    · rw [hplace, GET_ALLOC, hi5 (HDRP bp) (by omega) (by omega)
        (by rcases hrootsep with h0 | ⟨hb, hsep2⟩ <;> omega)]
      show m4 (HDRP bp) % 2 = 1
      rw [hm4h]
      omega
    · rw [hplace, hi5 (bp + asize - 8) (by omega) (by omega)
        (by rcases hrootsep with h0 | ⟨hb, hsep2⟩ <;> omega)]
      exact hm4f
    · rw [hplace, GET_SIZE, hi5 (HDRP (bp + asize)) (by omega) (by omega)
        (by rcases hrootsep with h0 | ⟨hb, hsep2⟩ <;> omega)]
      show m4 (HDRP (bp + asize)) % 2 ^ 32 / 8 * 8 = _
      rw [hH2, hm4rem]
      omega
    · rw [hplace, GET_ALLOC, hi5 (HDRP (bp + asize)) (by omega) (by omega)
        (by rcases hrootsep with h0 | ⟨hb, hsep2⟩ <;> omega)]
      show m4 (HDRP (bp + asize)) % 2 = 0
      rw [hH2, hm4rem]
      omega
    · rw [hplace, hi5 (bp + GET_SIZE s.mem (HDRP bp) - 8) (by omega) (by omega)
        (by rcases hrootsep with h0 | ⟨hb, hsep2⟩ <;> omega)]
      exact hm4remf
    · rw [hplace, show get_list_index (GET_SIZE s.mem (HDRP bp) - asize) =
        get_list_index (sub32 (GET_SIZE s.mem (HDRP bp)) asize) from by rw [hsub],
        hi1, hbp2]
    · rw [hplace, GET_PRED, PRED_PTR, ← hbp2, hi3]
    · rw [hplace, GET_SUCC, SUCC_PTR, ← hbp2, hi4]
      rcases hrootsep with h0 | ⟨hb, hsep2⟩
      · rw [h0]
        decide
      · rw [Nat.mod_eq_of_lt hb]
  · -- no-split branch: consume the block whole
    intro hlt16
    have hplace : place s bp asize =
        { delete_node s bp with mem := (PUT
            (PUT (delete_node s bp).mem (HDRP bp) (PACK (GET_SIZE s.mem (HDRP bp)) 1))
            (FTRP (PUT (delete_node s bp).mem (HDRP bp)
              (PACK (GET_SIZE s.mem (HDRP bp)) 1)) bp)
            (PACK (GET_SIZE s.mem (HDRP bp)) 1)) } := by
      rw [place, if_neg (by rw [hsub]; omega)]
    set m1 := PUT (delete_node s bp).mem (HDRP bp) (PACK (GET_SIZE s.mem (HDRP bp)) 1)
      with hm1d
    have ht1 := stored_tag (delete_node s bp).mem (HDRP bp) (GET_SIZE s.mem (HDRP bp)) 1
      hcs8 hcslt (by omega)
    have hm1h : m1 (HDRP bp) = GET_SIZE s.mem (HDRP bp) + 1 := ht1.1
    have hm1sz : GET_SIZE m1 (HDRP bp) = GET_SIZE s.mem (HDRP bp) := ht1.2.1
    have hftr1 : FTRP m1 bp = bp + GET_SIZE s.mem (HDRP bp) - 8 := by rw [FTRP, hm1sz]
    set m2 := PUT m1 (FTRP m1 bp) (PACK (GET_SIZE s.mem (HDRP bp)) 1) with hm2d
    have hm2h : m2 (HDRP bp) = GET_SIZE s.mem (HDRP bp) + 1 := by
      have hne : HDRP bp ≠ bp + GET_SIZE s.mem (HDRP bp) - 8 := by omega
      rw [hm2d, hftr1, PUT_elsewhere _ _ _ _ hne, hm1h]
    have hm2f : m2 (bp + GET_SIZE s.mem (HDRP bp) - 8) = GET_SIZE s.mem (HDRP bp) + 1 := by
      have h2 := stored_tag m1 (FTRP m1 bp) (GET_SIZE s.mem (HDRP bp)) 1 hcs8 hcslt (by omega)
      have h3 := h2.1
      rw [hftr1] at h3
      rw [hm2d, hftr1, h3]
    have hm2frame : ∀ x ∈ l1 ++ l2, ∀ v, v ≤ 4 →
        m2 (x + v) = (delete_node s bp).mem (x + v) := by
      intro x hx v hv
      rcases hsep x hx with hlow | hhigh
      · rw [hm2d, hftr1, PUT_elsewhere _ _ _ _ (by omega), hm1d, HDRP,
          PUT_elsewhere _ _ _ _ (by omega)]
      · rw [hm2d, hftr1, PUT_elsewhere _ _ _ _ (by omega), hm1d, HDRP,
          PUT_elsewhere _ _ _ _ (by omega)]
    refine ⟨?_, ?_, ?_, ?_, ?_⟩
    · rw [hplace, GET_SIZE]
      show m2 (HDRP bp) % 2 ^ 32 / 8 * 8 = _
      rw [hm2h]
      omega
    · rw [hplace, GET_ALLOC]
      show m2 (HDRP bp) % 2 = 1
      rw [hm2h]
      omega
    · rw [hplace]
      exact hm2f
    · rw [hplace]
      show isChainB m2 ((delete_node s bp).segList idx) (l1 ++ l2) = true
      rw [isChainB, chainSegB_frame (delete_node s bp).mem m2 0 (l1 ++ l2) _
        (fun x hx => by
          have h0 := hm2frame x hx 4 (le_refl 4)
          simpa [SUCC_PTR] using h0)]
      exact hchain1
    · rw [hplace]
      show predChainB m2 0 (l1 ++ l2) = true
      rw [predChainB_frame (delete_node s bp).mem m2 (l1 ++ l2) 0
        (fun x hx => by
          have h0 := hm2frame x hx 0 (by omega)
          simpa [PRED_PTR] using h0)]
      exact hpc1

/-- A heap whose single real block, at payload 96, is a 48-byte free block
    sitting in class 4; epilogue at 140. -/
def memE : Mem := fun a =>
  if a = 84 then 9 else if a = 88 then 9
  else if a = 92 then 48 else if a = 136 then 48
  else if a = 140 then 1 else 0

/-- The heap over `memE`, break at 144 with room to grow to 8192. -/
def heapE : MMState :=
  { mem := memE, segList := fun j => if j = 4 then 96 else 0,
    lo := 0, brk := 144, maxAddr := 8192 }

/-- Witness for C7: placing 16 bytes in the 48-byte free block of `heapE`
    splits it, leaving an allocated 16-byte block at 96 and a free 32-byte
    remainder at 112 at the head of class 2. -/
theorem c7_place_split_threshold_witness :
    GET_SIZE (place heapE 96 16).mem (HDRP 96) = 16 ∧
    GET_ALLOC (place heapE 96 16).mem (HDRP 96) = 1 ∧
    GET_SIZE (place heapE 96 16).mem (HDRP 112) = 32 ∧
    GET_ALLOC (place heapE 96 16).mem (HDRP 112) = 0 ∧
    (place heapE 96 16).segList 2 = 112 := by
  obtain ⟨h1, h2, h3⟩ := c7_place_split_threshold heapE 96 16 4 [] []
    (by decide) (by decide) (by decide) (by decide) (by decide) (by decide)
    (by decide) (by decide) (by decide) (by decide) (by decide) (by decide)
    (fun j hj => Or.inl (if_neg hj))
  have hcs : GET_SIZE heapE.mem (HDRP 96) = 48 := by decide
  rw [hcs] at h2
  obtain ⟨a1, a2, a3, a4, a5, a6, a7, a8, a9⟩ := h2 (by decide)
  exact ⟨a1, a2, a4, a5, a7⟩

/-! ### C3: heap block walks, coalescing, and the no-adjacent-free invariant -/

/-- A block descriptor: payload address, block size, allocated bit. -/
abbrev Blk : Type := Nat × Nat × Nat

/-- The size component of a block descriptor. -/
def blkSize (b : Blk) : Nat := b.2.1

/-- The allocated bit of a block descriptor. -/
def blkAlloc (b : Blk) : Nat := b.2.2

/-- End address of a run of blocks laid out from payload address `bp`. -/
def blocksEnd (bp : Nat) (l : List Blk) : Nat := bp + (l.map blkSize).sum

/-- `walkSegB m bp l`: the descriptors `l` lay out consecutive heap blocks
    starting at payload `bp`, read exactly as the block walk of `mm_check`
    reads them: each header and footer holds `size | alloc`, sizes are
    multiples of 8 of at least the 16-byte minimum block, payloads are
    8-aligned, past the prologue, and below 2^32. -/
def walkSegB (m : Mem) : Nat → List Blk → Bool
  | _, [] => true
  | bp, (b, sz, al) :: rest =>
    b == bp && decide (m (bp - 4) = sz + al) && decide (m (bp + sz - 8) = sz + al) &&
    decide (sz % 8 = 0) && decide (16 ≤ sz) && decide (al ≤ 1) &&
    decide (bp % 8 = 0) && decide (16 ≤ bp) && decide (bp + sz < 2 ^ 32) &&
    walkSegB m (bp + sz) rest

/-- `describesB m bp l`: the heap from payload `bp` onward consists of the
    blocks `l` followed by the epilogue header `PACK(0, 1)`. -/
def describesB (m : Mem) (bp : Nat) (l : List Blk) : Bool :=
  walkSegB m bp l && decide (m (blocksEnd bp l - 4) = 1)

/-- No two address-adjacent blocks of a walk are both free. -/
def noAdjFree (l : List Blk) : Prop :=
  List.Chain' (fun a b => blkAlloc a ≠ 0 ∨ blkAlloc b ≠ 0) l

theorem blocksEnd_nil (bp : Nat) : blocksEnd bp [] = bp := by
  simp [blocksEnd]

theorem blocksEnd_cons (bp : Nat) (b : Blk) (l : List Blk) :
    blocksEnd bp (b :: l) = blocksEnd (bp + blkSize b) l := by
  simp [blocksEnd]
  omega

theorem blocksEnd_append (bp : Nat) (l1 l2 : List Blk) :
    blocksEnd bp (l1 ++ l2) = blocksEnd (blocksEnd bp l1) l2 := by
  simp [blocksEnd]
  omega

theorem walkSegB_append (m : Mem) (l2 : List Blk) :
    ∀ (l1 : List Blk) (bp : Nat),
      walkSegB m bp (l1 ++ l2) =
        (walkSegB m bp l1 && walkSegB m (blocksEnd bp l1) l2) := by
  intro l1
  induction l1 with
  | nil => intro bp; simp [walkSegB, blocksEnd]
  | cons x t ih =>
    intro bp
    obtain ⟨b, sz, al⟩ := x
    simp only [List.cons_append, walkSegB, List.append_eq]
    rw [ih (bp + sz)]
    have he : blocksEnd bp ((b, sz, al) :: t) = blocksEnd (bp + sz) t := by
      simp [blocksEnd, blkSize]
      omega
    rw [he]
    simp only [Bool.and_assoc]

theorem walkSegB_frame (m m2 : Mem) :
    ∀ (l : List Blk) (bp : Nat),
      (∀ x ∈ l, m2 (x.1 - 4) = m (x.1 - 4) ∧
        m2 (x.1 + x.2.1 - 8) = m (x.1 + x.2.1 - 8)) →
      walkSegB m2 bp l = walkSegB m bp l := by
  intro l
  induction l with
  | nil => intro bp h; rfl
  | cons x t ih =>
    intro bp h
    obtain ⟨b, sz, al⟩ := x
    by_cases hb : b = bp
    · subst hb
      obtain ⟨h1, h2⟩ := h (b, sz, al) (List.mem_cons_self _ _)
      simp only [walkSegB] at h1 h2 ⊢
      rw [h1, h2, ih (b + sz) (fun y hy => h y (List.mem_cons_of_mem _ hy))]
    · have hbeq : (b == bp) = false := by simpa using hb
      simp [walkSegB, hbeq]

theorem walkSegB_facts (m : Mem) :
    ∀ (l : List Blk) (bp : Nat), walkSegB m bp l = true →
      ∀ x ∈ l, m (x.1 - 4) = x.2.1 + x.2.2 ∧ m (x.1 + x.2.1 - 8) = x.2.1 + x.2.2 ∧
        x.2.1 % 8 = 0 ∧ 16 ≤ x.2.1 ∧ x.2.2 ≤ 1 ∧ x.1 % 8 = 0 ∧ 16 ≤ x.1 ∧
        x.1 + x.2.1 < 2 ^ 32 ∧ bp ≤ x.1 ∧ x.1 + x.2.1 ≤ blocksEnd bp l := by
  intro l
  induction l with
  | nil => intro bp h x hx; simp at hx
  | cons y t ih =>
    intro bp h x hx
    obtain ⟨b, sz, al⟩ := y
    simp only [walkSegB, Bool.and_eq_true, beq_iff_eq, decide_eq_true_eq] at h
    obtain ⟨⟨⟨⟨⟨⟨⟨⟨⟨hb, hh⟩, hf⟩, h8⟩, h16⟩, hal⟩, hbal⟩, hb16⟩, hlt⟩, hrest⟩ := h
    subst hb
    have hend : blocksEnd b ((b, sz, al) :: t) = blocksEnd (b + sz) t := by
      simp [blocksEnd, blkSize]; omega
    rcases List.mem_cons.mp hx with rfl | hmem
    · refine ⟨hh, hf, h8, h16, hal, hbal, hb16, hlt, le_refl _, ?_⟩
      rw [hend]
      exact Nat.le_add_right _ _
    · obtain ⟨g1, g2, g3, g4, g5, g6, g7, g8, g9, g10⟩ := ih (b + sz) hrest x hmem
      exact ⟨g1, g2, g3, g4, g5, g6, g7, g8, by omega, by rw [hend]; exact g10⟩

theorem walkSegB_last (m : Mem) :
    ∀ (l : List Blk) (bp : Nat), walkSegB m bp l = true →
      ∀ x ∈ l.getLast?, x.1 + x.2.1 = blocksEnd bp l := by
  intro l
  induction l with
  | nil => intro bp h x hx; simp at hx
  | cons y t ih =>
    intro bp h x hx
    obtain ⟨b, sz, al⟩ := y
    simp only [walkSegB, Bool.and_eq_true, beq_iff_eq, decide_eq_true_eq] at h
    obtain ⟨⟨⟨⟨⟨⟨⟨⟨⟨hb, hh⟩, hf⟩, h8⟩, h16⟩, hal⟩, hbal⟩, hb16⟩, hlt⟩, hrest⟩ := h
    subst hb
    have hend : blocksEnd b ((b, sz, al) :: t) = blocksEnd (b + sz) t := by
      simp [blocksEnd, blkSize]; omega
    cases t with
    | nil =>
      have hx2 : (b, sz, al) = x := by simpa using hx
      subst hx2
      rw [hend]
      simp [blocksEnd]
    | cons z r =>
      have hx2 : x ∈ (z :: r).getLast? := by
        simpa [List.getLast?_cons_cons] using hx
      rw [hend]
      exact ih (b + sz) hrest x hx2

theorem walkSegB_end_mod8 (m : Mem) :
    ∀ (l : List Blk) (bp : Nat), walkSegB m bp l = true → bp % 8 = 0 →
      blocksEnd bp l % 8 = 0 := by
  intro l
  induction l with
  | nil => intro bp h h8; simpa [blocksEnd] using h8
  | cons y t ih =>
    intro bp h h8
    obtain ⟨b, sz, al⟩ := y
    simp only [walkSegB, Bool.and_eq_true, beq_iff_eq, decide_eq_true_eq] at h
    have hend : blocksEnd bp ((b, sz, al) :: t) = blocksEnd (bp + sz) t := by
      simp [blocksEnd, blkSize]; omega
    rw [hend]
    exact ih (bp + sz) h.2 (by omega)

theorem coalesce_free_case1 (t : MMState) (start bp csz psz : Nat)
    (bsA rest2 : List Blk)
    (hw : describesB t.mem start (bsA ++ (bp, csz, 0) :: rest2) = true)
    (hpF : t.mem (bp - 8) = psz + 1)
    (hpsz8 : psz % 8 = 0) (hpsz1 : 8 ≤ psz) (hpszb : psz + 8 ≤ bp)
    (hpH : t.mem (bp - psz - 4) = psz + 1)
    (hnextAl : ∀ p ∈ rest2.head?, blkAlloc p = 1)
    (hnadjA : noAdjFree bsA) (hnadjR : noAdjFree rest2)
    (hroot : t.segList (get_list_index csz) = 0 ∨
      (t.segList (get_list_index csz) < 2 ^ 32 ∧
       t.segList (get_list_index csz) ≠ bp ∧ t.segList (get_list_index csz) ≠ bp + 4 ∧
       (∀ b ∈ bsA ++ (bp, csz, 0) :: rest2,
         t.segList (get_list_index csz) ≠ b.1 - 4 ∧
         t.segList (get_list_index csz) ≠ b.1 + b.2.1 - 8) ∧
       t.segList (get_list_index csz) ≠
         blocksEnd start (bsA ++ (bp, csz, 0) :: rest2) - 4)) :
    (coalesce t bp).2 = bp ∧
    describesB (coalesce t bp).1.mem start (bsA ++ (bp, csz, 0) :: rest2) = true ∧
    noAdjFree (bsA ++ (bp, csz, 0) :: rest2) ∧
    (coalesce t bp).1.segList (get_list_index csz) = bp ∧
    GET_PRED (coalesce t bp).1.mem bp = 0 ∧
    GET_SUCC (coalesce t bp).1.mem bp = t.segList (get_list_index csz) := by
  have hw0 := hw
  rw [describesB, Bool.and_eq_true, decide_eq_true_eq] at hw0
  obtain ⟨hwsF, hepi⟩ := hw0
  have hws := hwsF
  rw [walkSegB_append, Bool.and_eq_true] at hws
  obtain ⟨hwsA, hwsB⟩ := hws
  have hbbp : blocksEnd start bsA = bp := by
    have h2 := hwsB
    simp only [walkSegB, Bool.and_eq_true, beq_iff_eq, decide_eq_true_eq] at h2
    exact h2.1.1.1.1.1.1.1.1.1.symm
  rw [hbbp] at hwsB
  obtain ⟨hh, hf, h8, h16, -, hb8, hb16, hblt, -, hbend⟩ :
      t.mem (bp - 4) = csz + 0 ∧ t.mem (bp + csz - 8) = csz + 0 ∧ csz % 8 = 0 ∧
      16 ≤ csz ∧ 0 ≤ 1 ∧ bp % 8 = 0 ∧ 16 ≤ bp ∧ bp + csz < 2 ^ 32 ∧ bp ≤ bp ∧
      bp + csz ≤ blocksEnd bp ((bp, csz, 0) :: rest2) :=
    walkSegB_facts t.mem _ _ hwsB (bp, csz, 0) (List.mem_cons_self _ _)
  have hwR : walkSegB t.mem (bp + csz) rest2 = true := by
    have h2 := hwsB
    simp only [walkSegB, Bool.and_eq_true] at h2
    exact h2.2
  have hE : blocksEnd start (bsA ++ (bp, csz, 0) :: rest2) = blocksEnd (bp + csz) rest2 := by
    rw [blocksEnd_append, hbbp, blocksEnd_cons]
    rfl
  have hEge : bp + csz ≤ blocksEnd start (bsA ++ (bp, csz, 0) :: rest2) := by
    rw [hE]
    exact Nat.le_add_right _ _
  rw [hE] at hepi
  -- the four boundary-tag reads select case 1
  have hprev : PREV_BLKP t.mem bp = bp - psz := by
    rw [PREV_BLKP, GET_SIZE, hpF]
    omega
  have hprevF : FTRP t.mem (bp - psz) = bp - 8 := by
    rw [FTRP, HDRP, GET_SIZE]
    rw [show bp - psz - 4 = bp - psz - 4 from rfl, hpH]
    omega
  have hpa : GET_ALLOC t.mem (FTRP t.mem (PREV_BLKP t.mem bp)) ≠ 0 := by
    rw [hprev, hprevF, GET_ALLOC, hpF]
    omega
  have hnextb : NEXT_BLKP t.mem bp = bp + csz := by
    rw [NEXT_BLKP, GET_SIZE, hh]
    omega
  have hnxhdr : t.mem (bp + csz - 4) % 2 = 1 := by
    cases rest2 with
    | nil =>
      rw [show blocksEnd (bp + csz) ([] : List Blk) = bp + csz from rfl] at hepi
      rw [hepi]
    | cons p r =>
      obtain ⟨b2, sz2, al2⟩ := p
      have h2 := hwR
      simp only [walkSegB, Bool.and_eq_true, beq_iff_eq, decide_eq_true_eq] at h2
      have hb2 : b2 = bp + csz := h2.1.1.1.1.1.1.1.1.1
      have hhd : t.mem (bp + csz - 4) = sz2 + al2 := h2.1.1.1.1.1.1.1.1.2
      have hsz2 : sz2 % 8 = 0 := h2.1.1.1.1.1.1.2
      have hal2 : al2 = 1 := by
        have := hnextAl (b2, sz2, al2) (by simp)
        simpa [blkAlloc] using this
      rw [hhd, hal2]
      omega
  have hna : GET_ALLOC t.mem (HDRP (NEXT_BLKP t.mem bp)) ≠ 0 := by
    rw [hnextb, HDRP, GET_ALLOC, hnxhdr]
    omega
  have hsize : GET_SIZE t.mem (HDRP bp) = csz := by
    rw [HDRP, GET_SIZE, hh]
    omega
  have hco : coalesce t bp = (insert_node t bp (GET_SIZE t.mem (HDRP bp)), bp) := by
    rw [coalesce, if_pos ⟨hpa, hna⟩]
  rw [hsize] at hco
  have hr1 : t.segList (get_list_index csz) ≠ bp := by
    rcases hroot with h0 | ⟨-, hb, -⟩
    · rw [h0]; omega
    · exact hb
  have hr2 : t.segList (get_list_index csz) ≠ bp + 4 := by
    rcases hroot with h0 | ⟨-, -, hb, -⟩
    · rw [h0]; omega
    · exact hb
  obtain ⟨hi1, hi2, hi3, hi4, hi5, -, -, -⟩ := insert_node_spec t bp csz hr1 hr2
  -- positional facts for every block of the walk
  have hposf : ∀ x ∈ bsA ++ (bp, csz, 0) :: rest2, 16 ≤ x.2.1 ∧ 16 ≤ x.1 ∧
      (x.1 + x.2.1 ≤ bp ∨ (x.1 = bp ∧ x.2.1 = csz) ∨ bp + csz ≤ x.1) := by
    intro x hx
    rcases List.mem_append.mp hx with hA | hBC
    · obtain ⟨-, -, -, g4, -, -, g7, -, -, g10⟩ := walkSegB_facts t.mem _ _ hwsA x hA
      rw [hbbp] at g10
      exact ⟨g4, g7, Or.inl g10⟩
    · rcases List.mem_cons.mp hBC with rfl | hR
      · exact ⟨h16, hb16, Or.inr (Or.inl ⟨rfl, rfl⟩)⟩
      · obtain ⟨-, -, -, g4, -, -, g7, -, g9, -⟩ := walkSegB_facts t.mem _ _ hwR x hR
        exact ⟨g4, g7, Or.inr (Or.inr g9)⟩
  -- the inserted links land inside the freed payload, away from every
  -- header, footer and the epilogue
  have hagree : ∀ x ∈ bsA ++ (bp, csz, 0) :: rest2,
      (insert_node t bp csz).mem (x.1 - 4) = t.mem (x.1 - 4) ∧
      (insert_node t bp csz).mem (x.1 + x.2.1 - 8) = t.mem (x.1 + x.2.1 - 8) := by
    intro x hx
    obtain ⟨g1, g2, g3⟩ := hposf x hx
    have hd1 : x.1 - 4 ≠ bp := by omega
    have hd2 : x.1 - 4 ≠ bp + 4 := by omega
    have hd3 : x.1 + x.2.1 - 8 ≠ bp := by
      rcases g3 with h | ⟨h, h2⟩ | h
      · omega
      · omega
      · omega
    have hd4 : x.1 + x.2.1 - 8 ≠ bp + 4 := by
      rcases g3 with h | ⟨h, h2⟩ | h
      · omega
      · omega
      · omega
    rcases hroot with h0 | ⟨-, -, -, havd, -⟩
    · have hr3 : x.1 - 4 ≠ t.segList (get_list_index csz) := by rw [h0]; omega
      have hr4 : x.1 + x.2.1 - 8 ≠ t.segList (get_list_index csz) := by rw [h0]; omega
      exact ⟨hi5 _ hd1 hd2 hr3, hi5 _ hd3 hd4 hr4⟩
    · obtain ⟨ha1, ha2⟩ := havd x hx
      exact ⟨hi5 _ hd1 hd2 (fun hcon => ha1 hcon.symm),
        hi5 _ hd3 hd4 (fun hcon => ha2 hcon.symm)⟩
  refine ⟨by rw [hco], ?_, ?_, by rw [hco]; exact hi1, ?_, ?_⟩
  · rw [hco]
    rw [describesB, Bool.and_eq_true, decide_eq_true_eq]
    constructor
    · rw [walkSegB_frame t.mem (insert_node t bp csz).mem _ start hagree]
      exact hwsF
    · have hd1 : blocksEnd start (bsA ++ (bp, csz, 0) :: rest2) - 4 ≠ bp := by omega
      have hd2 : blocksEnd start (bsA ++ (bp, csz, 0) :: rest2) - 4 ≠ bp + 4 := by omega
      have hd3 : blocksEnd start (bsA ++ (bp, csz, 0) :: rest2) - 4 ≠
          t.segList (get_list_index csz) := by
        rcases hroot with h0 | ⟨-, -, -, -, havE⟩
        · rw [h0]; omega
        · exact fun hcon => havE hcon.symm
      rw [hi5 _ hd1 hd2 hd3, hE]
      exact hepi
  · refine List.chain'_append.mpr ⟨hnadjA, ?_, ?_⟩
    · refine List.chain'_cons'.mpr ⟨?_, hnadjR⟩
      intro y hy
      right
      rw [hnextAl y hy]
      omega
    · intro x hx y hy
      left
      have hxl := walkSegB_last t.mem bsA start hwsA x hx
      rw [hbbp] at hxl
      have hxmem : x ∈ bsA := List.mem_of_mem_getLast? hx
      obtain ⟨-, gf, g3, g4, g5, -, -, -, -, -⟩ := walkSegB_facts t.mem _ _ hwsA x hxmem
      rw [show x.1 + x.2.1 - 8 = bp - 8 from by omega, hpF] at gf
      show x.2.2 ≠ 0
      omega
  · rw [hco, GET_PRED, PRED_PTR]
    exact hi3
  · rw [hco, GET_SUCC, SUCC_PTR, hi4]
    rcases hroot with h0 | ⟨hlt2, -⟩
    · rw [h0]
      decide
    · exact Nat.mod_eq_of_lt hlt2
